import Mathlib

/-!
unifi-discover: the discovery frame decoder and the receive loop

A shallow embedding of `unifidiscover.go`.

* A Go `[]byte` is a window on a backing array.  `ByteSlice` keeps the `len`
  visible bytes (`data`) and the bytes of the backing array that lie between
  `len` and `cap` (`spare`).  Go checks an index `d[i]` against `len(d)` and
  a slice expression `d[lo:hi]` against `cap(d)`; both checks are modelled,
  a failed check is the outcome `panic`.
* A sub-slice of the input (`data := d[offset : offset+fieldLen]`) shares the
  backing array of the input.  It is modelled as a `View` (two offsets into
  that backing array); its bytes are obtained with `View.bytes` from the
  backing array *as it is at the time of reading*.
* `string(data)` and `net.IPv4(a, b, c, d)` allocate: they are plain byte lists.
* Go `int` is 64 bits; every quantity below is bounded by the capacity of a
  slice plus `3 + 65535`, so no wrap-around can occur and `Nat` is used.
-/

namespace UnifiDiscover

/-- One octet. -/
abbrev Byte := Fin 256

/-- A Go `[]byte`: `data` are the `len` visible bytes, `spare` the bytes of the
backing array between `len` and `cap`. -/
structure ByteSlice where
  data : List Byte
  spare : List Byte
deriving DecidableEq, Repr

/-- Go `len(d)`. -/
def ByteSlice.len (d : ByteSlice) : Nat := d.data.length

/-- Go `cap(d)`. -/
def ByteSlice.cap (d : ByteSlice) : Nat := d.data.length + d.spare.length

/-- The backing array of `d`, from the first byte of `d` up to its capacity. -/
def ByteSlice.backing (d : ByteSlice) : List Byte := d.data ++ d.spare

/-- A sub-slice `d[lo:hi]` of the input, sharing its backing array. -/
structure View where
  lo : Nat
  hi : Nat
deriving DecidableEq, Repr

/-- Go `len(v)` of a sub-slice. -/
def View.len (v : View) : Nat := v.hi - v.lo

/-- The bytes a sub-slice shows when the backing array holds `arr`. -/
def View.bytes (arr : List Byte) (v : View) : List Byte :=
  (arr.drop v.lo).take (v.hi - v.lo)

/-- `DiscoveryHeader = []byte{0x01, 0x00, 0x00}`. -/
def DiscoveryHeader : List Byte := [0x01, 0x00, 0x00]

/-- `MACLen = 6`. -/
def MACLen : Nat := 6

/-- `net.IPv4len`. -/
def IPv4len : Nat := 4

/-- `net.IPv6len`. -/
def IPv6len : Nat := 16

/-- `type FieldType int`; the decoder only builds it from one byte. -/
abbrev FieldType := Nat

def FieldTypeMAC : FieldType := 0x01
def FieldTypeMACAndIP : FieldType := 0x02
def FieldTypeFirmware : FieldType := 0x03
def FieldTypeRadioName : FieldType := 0x0b
def FieldTypeModelShort : FieldType := 0x0c
def FieldTypeESSID : FieldType := 0x0d
def FieldTypeModelFull : FieldType := 0x14

/-- The six `fmt.Errorf` sites of `FromBytes`, with the numbers they print. -/
inductive DecodeError where
  /-- Line 81: "short buffer: want at least 4 bytes, got %d". -/
  | shortBuffer (got : Nat)
  /-- Line 84: "not a discovery response". -/
  | notDiscoveryResponse
  /-- Line 93: "invalid payload length, got %d, want %d". -/
  | invalidPayloadLength (got want : Nat)
  /-- Line 111: "short MAC field: want %d bytes, got %d". -/
  | shortMAC (want got : Nat)
  /-- Line 117: "short MAC_and_IP field: want at least %d, got %d". -/
  | shortMACAndIP (want got : Nat)
  /-- Line 129: "invalid IPv6 address length: want %d, got %d". -/
  | invalidIPv6Length (want got : Nat)
deriving DecidableEq, Repr

/-- Go run-time panics that the decoder can raise. -/
inductive Panic where
  /-- Index `d[i]` with `i ≥ len(d)`. -/
  | indexOutOfRange (i len : Nat)
  /-- Slice expression `d[lo:hi]` with `hi > cap(d)`. -/
  | sliceBoundsOutOfRange (hi cap : Nat)
deriving DecidableEq, Repr

/-- The value of a `net.IP` field: freshly allocated bytes (`net.IPv4(..)`) or
a sub-slice of the input (`net.IP(data[MACLen:])`). -/
inductive IPValue where
  | fresh (bs : List Byte)
  | shared (v : View)
deriving DecidableEq, Repr

/-- `type DiscoveryResponse struct`.  `MAC`, `IP` are `none` while nil; the
slice-typed members are views on the decoded buffer. -/
structure DiscoveryResponse where
  MAC : Option View
  IP : Option IPValue
  Firmware : List Byte
  RadioName : List Byte
  ModelShort : List Byte
  ESSID : List Byte
  ModelFull : List Byte
  Unknown : List (FieldType × View)
deriving DecidableEq, Repr

/-- `NewDiscoveryResponse()`: every member zero, `Unknown` an empty map. -/
def NewDiscoveryResponse : DiscoveryResponse :=
  { MAC := none, IP := none, Firmware := [], RadioName := [], ModelShort := [],
    ESSID := [], ModelFull := [], Unknown := [] }

/-- Go map assignment `m[k] = v`: one entry per key, the new value replaces the old. -/
def mapSet (m : List (FieldType × View)) (k : FieldType) (v : View) : List (FieldType × View) :=
  (k, v) :: m.filter (fun e => e.1 ≠ k)

/-- Go map lookup `m[k]`. -/
def mapGet (m : List (FieldType × View)) (k : FieldType) : Option View :=
  (m.find? (fun e => e.1 = k)).map Prod.snd

/-- What a call of `FromBytes` (or one step of it) can end in. -/
inductive Outcome (α : Type) where
  /-- Normal return with a nil error. -/
  | ok (a : α)
  /-- Return of `nil` and a non-nil error. -/
  | error (e : DecodeError)
  /-- Run-time panic. -/
  | panic (p : Panic)
  /-- The iteration bound of the model was reached (shown not to happen). -/
  | outOfFuel
deriving DecidableEq, Repr

/-- `v4InV6Prefix` of package `net`. -/
def v4InV6Prefix : List Byte := [0, 0, 0, 0, 0, 0, 0, 0, 0, 0, 0xff, 0xff]

/-- `net.IPv4(a, b, c, d)`: the 16-byte form of the IPv4 address `a.b.c.d`. -/
def IPv4 (a b c d : Byte) : List Byte := v4InV6Prefix ++ [a, b, c, d]

/-- `binary.BigEndian.Uint16(b)`: `uint16(b[1]) | uint16(b[0])<<8`, after the
bounds check `_ = b[1]`. -/
def BigEndianUint16 (b : List Byte) : Outcome Nat :=
  match b with
  | b0 :: b1 :: _ => .ok (b0.val * 256 + b1.val)
  | _ => .panic (.indexOutOfRange 1 b.length)

/-- The `switch type_` of `FromBytes` (lines 108-144) for one field: `arr` is
the backing array, `data` the field's value. -/
def applyField (arr : List Byte) (type_ : FieldType) (data : View)
    (resp : DiscoveryResponse) : Outcome DiscoveryResponse :=
  if type_ = FieldTypeMAC then
    if data.len ≠ MACLen then .error (.shortMAC MACLen data.len)
    else .ok { resp with MAC := some data }
  else if type_ = FieldTypeMACAndIP then
    if data.len < MACLen + IPv4len then
      .error (.shortMACAndIP (MACLen + IPv4len) data.len)
    else
      let resp := { resp with MAC := some ⟨data.lo, data.lo + MACLen⟩ }
      let rest : View := ⟨data.lo + MACLen, data.hi⟩
      if rest.len = IPv4len then
        match rest.bytes arr with
        | [a, b, c, d] => .ok { resp with IP := some (.fresh (IPv4 a b c d)) }
        | bs => .panic (.indexOutOfRange 9 (MACLen + bs.length))
      else if rest.len = IPv6len then .ok { resp with IP := some (.shared rest) }
      else .error (.invalidIPv6Length IPv6len rest.len)
  else if type_ = FieldTypeFirmware then .ok { resp with Firmware := data.bytes arr }
  else if type_ = FieldTypeRadioName then .ok { resp with RadioName := data.bytes arr }
  else if type_ = FieldTypeModelShort then .ok { resp with ModelShort := data.bytes arr }
  else if type_ = FieldTypeModelFull then .ok { resp with ModelFull := data.bytes arr }
  else if type_ = FieldTypeESSID then .ok { resp with ESSID := data.bytes arr }
  else .ok { resp with Unknown := mapSet resp.Unknown type_ data }

/-- The `for` loop of `FromBytes` (lines 98-145).  `fuel` bounds the number of
iterations of the model. -/
def fieldLoop (d : ByteSlice) : Nat → Nat → DiscoveryResponse → Outcome DiscoveryResponse
  | 0, _, _ => .outOfFuel
  | fuel + 1, offset, resp =>
    if offset ≥ d.len then .ok resp
    else
      match d.data[offset]? with
      | none => .panic (.indexOutOfRange offset d.len)
      | some t =>
        let type_ : FieldType := t.val
        let offset := offset + 1
        if offset + 2 > d.cap then .panic (.sliceBoundsOutOfRange (offset + 2) d.cap)
        else
          match BigEndianUint16 (View.bytes d.backing ⟨offset, offset + 2⟩) with
          | .error e => .error e
          | .panic p => .panic p
          | .outOfFuel => .outOfFuel
          | .ok fieldLen =>
            let offset := offset + 2
            if offset + fieldLen > d.cap then
              .panic (.sliceBoundsOutOfRange (offset + fieldLen) d.cap)
            else
              let data : View := ⟨offset, offset + fieldLen⟩
              let offset := offset + fieldLen
              match applyField d.backing type_ data resp with
              | .ok resp => fieldLoop d fuel offset resp
              | .error e => .error e
              | .panic p => .panic p
              | .outOfFuel => .outOfFuel

/-- `FromBytes(d)`.  `ok (some r)` is `(r, nil)`, `ok none` is `(nil, nil)`,
`error e` is `(nil, e)`. -/
def FromBytes (d : ByteSlice) : Outcome (Option DiscoveryResponse) :=
  if d.len < 4 then .error (.shortBuffer d.len)
  else if d.data.take DiscoveryHeader.length ≠ DiscoveryHeader then .error .notDiscoveryResponse
  else
    match d.data[3]? with
    | none => .panic (.indexOutOfRange 3 d.len)
    | some l =>
      let payloadLen : Nat := l.val
      if payloadLen = 0 then .ok none
      else if d.len - DiscoveryHeader.length - 1 ≠ payloadLen then
        .error (.invalidPayloadLength payloadLen (d.len - DiscoveryHeader.length - 1))
      else
        match fieldLoop d d.len (DiscoveryHeader.length + 1) NewDiscoveryResponse with
        | .ok resp => .ok (some resp)
        | .error e => .error e
        | .panic p => .panic p
        | .outOfFuel => .outOfFuel

/-- The contents of a response, read through its views while the backing
array holds `arr`. -/
structure ResponseValue where
  MAC : Option (List Byte)
  IP : Option (List Byte)
  Firmware : List Byte
  RadioName : List Byte
  ModelShort : List Byte
  ESSID : List Byte
  ModelFull : List Byte
  Unknown : List (FieldType × List Byte)
deriving DecidableEq, Repr

/-- Reads every member of a response out of the backing array `arr`. -/
def DiscoveryResponse.read (arr : List Byte) (r : DiscoveryResponse) : ResponseValue :=
  { MAC := r.MAC.map (View.bytes arr)
    IP := r.IP.map (fun ip => match ip with
      | .fresh bs => bs
      | .shared v => v.bytes arr)
    Firmware := r.Firmware
    RadioName := r.RadioName
    ModelShort := r.ModelShort
    ESSID := r.ESSID
    ModelFull := r.ModelFull
    Unknown := r.Unknown.map (fun e => (e.1, e.2.bytes arr)) }

/-- The probe that `Discover` sends (line 47): `"\x01\x00\x00\x00"`. -/
def probe : List Byte := [0x01, 0x00, 0x00, 0x00]

/-- Size of the receive buffer: `buf := make([]byte, 1024)`. -/
def bufSize : Nat := 1024

/-- How the sequence of socket reads ends: the read deadline expires, or the
read fails with an error that is not a timeout. -/
inductive ReadEnd where
  | timeout
  | failure
deriving DecidableEq, Repr

/-- The environment of one `Discover` call: whether `net.ListenPacket`,
`net.ResolveUDPAddr`, the `pc.WriteTo` of the probe (in the goroutine of lines
46-50) and `pc.SetReadDeadline` succeed, the datagrams that `pc.ReadFrom`
delivers in order, and how the reads end. -/
structure Net where
  listenOk : Bool
  resolveOk : Bool
  sendOk : Bool
  deadlineOk : Bool
  datagrams : List (List Byte)
  last : ReadEnd
deriving DecidableEq, Repr

/-- The places where `Discover` calls `log.Fatalf`, which ends the process. -/
inductive FatalSite where
  /-- Line 38: "Failed to listen". -/
  | listen
  /-- Line 44: "Failed to resolve UDP addr". -/
  | resolve
  /-- Line 48, in the goroutine: "Failed to send broadcast packet". -/
  | send
  /-- Line 56: "Failed to set read timeout". -/
  | setReadDeadline
deriving DecidableEq, Repr

/-- What a call of `Discover` can end in. -/
inductive DiscoverResult where
  /-- `return responses, nil`: the responses as the caller reads them. -/
  | returned (responses : List ResponseValue)
  /-- `return nil, fmt.Errorf("failed to read from network: %w", err)`. -/
  | readError
  /-- `log.Fatalf`: the process exits. -/
  | fatal (site : FatalSite)
  /-- Run-time panic inside `FromBytes`. -/
  | panic (p : Panic)
  /-- The iteration bound of the model of `FromBytes` was reached. -/
  | outOfFuel
deriving DecidableEq, Repr

/-- `n, addr, err := pc.ReadFrom(buf)` for a delivered datagram: the first
`n = min(len(datagram), len(buf))` bytes of `buf` are overwritten, the rest
of `buf` keeps what it held. -/
def ReadFrom (buf : List Byte) (datagram : List Byte) : Nat × List Byte :=
  let n := min datagram.length buf.length
  (n, datagram.take n ++ buf.drop n)

/-- The receive loop of `Discover` (lines 58-76).  `buf` is the one receive
buffer, `responses` the list built so far; the responses keep views on `buf`. -/
def receiveLoop : List (List Byte) → ReadEnd → List Byte → List DiscoveryResponse →
    DiscoverResult
  | [], .timeout, buf, responses => .returned (responses.map (DiscoveryResponse.read buf))
  | [], .failure, _, _ => .readError
  | datagram :: rest, e, buf, responses =>
    let (n, buf) := ReadFrom buf datagram
    match FromBytes ⟨buf.take n, buf.drop n⟩ with
    | .error _ => receiveLoop rest e buf responses
    | .ok none => receiveLoop rest e buf responses
    | .ok (some r) => receiveLoop rest e buf (responses ++ [r])
    | .panic p => .panic p
    | .outOfFuel => .outOfFuel

/-- `Discover(target, timeout)` in the environment `net`.  The goroutine that
writes the probe runs beside the caller; its `pc.WriteTo` is taken to be
decided before `pc.SetReadDeadline` and the first read return, so a failed
write ends the process through `log.Fatalf` before any datagram is handled
(when both the write and `pc.SetReadDeadline` fail, the write is reported). -/
def Discover (net : Net) : DiscoverResult :=
  if !net.listenOk then .fatal .listen
  else if !net.resolveOk then .fatal .resolve
  else if !net.sendOk then .fatal .send
  else if !net.deadlineOk then .fatal .setReadDeadline
  else receiveLoop net.datagrams net.last (List.replicate bufSize 0) []

/-- One pass of the receive loop of `Discover` for a delivered datagram (lines
59-74): the receive buffer and the list of responses after `pc.ReadFrom` and
`FromBytes`. -/
def receiveStep (buf : List Byte) (responses : List DiscoveryResponse)
    (datagram : List Byte) : Outcome (List Byte × List DiscoveryResponse) :=
  let (n, buf) := ReadFrom buf datagram
  match FromBytes ⟨buf.take n, buf.drop n⟩ with
  | .error _ => .ok (buf, responses)
  | .ok none => .ok (buf, responses)
  | .ok (some r) => .ok (buf, responses ++ [r])
  | .panic p => .panic p
  | .outOfFuel => .outOfFuel

/-- The receive buffer and the list of responses that the receive loop has
collected when the datagrams have been read, one `receiveStep` each. -/
def receiveAll : List (List Byte) → List Byte → List DiscoveryResponse →
    Outcome (List Byte × List DiscoveryResponse)
  | [], buf, responses => .ok (buf, responses)
  | datagram :: rest, buf, responses =>
    match receiveStep buf responses datagram with
    | .ok (buf, responses) => receiveAll rest buf responses
    | .error e => .error e
    | .panic p => .panic p
    | .outOfFuel => .outOfFuel


/-! ## The wire format of the specification

The repository has no encoder; the layout below is the one of the
specification (section 4.1): a field is 1 type byte, a 2-byte big-endian
length `N`, then `N` value bytes, and a payload is a sequence of fields. -/

/-- One field of a frame: its type code and its value bytes. -/
structure Field where
  type_ : Byte
  value : List Byte
deriving DecidableEq, Repr

/-- The two bytes of the big-endian 16-bit length `n`. -/
def lengthBytes (n : Nat) : List Byte :=
  [⟨n / 256 % 256, Nat.mod_lt _ (by decide)⟩, ⟨n % 256, Nat.mod_lt _ (by decide)⟩]

/-- Wire bytes of one field: type, big-endian length, value. -/
def encodeField (f : Field) : List Byte :=
  f.type_ :: (lengthBytes f.value.length ++ f.value)

/-- Wire bytes of a sequence of fields. -/
def encodeFields : List Field → List Byte
  | [] => []
  | f :: fs => encodeField f ++ encodeFields fs

/-- The length conditions that the `switch` of `FromBytes` puts on a field:
type 0x01 carries 6 bytes, type 0x02 carries 10 or 22 bytes. -/
def Field.wellFormed (f : Field) : Prop :=
  (f.type_.val = FieldTypeMAC → f.value.length = MACLen) ∧
  (f.type_.val = FieldTypeMACAndIP →
    f.value.length = MACLen + IPv4len ∨ f.value.length = MACLen + IPv6len)

instance (f : Field) : Decidable f.wellFormed := by
  unfold Field.wellFormed; infer_instance

/-- Sequencing of outcomes: the first outcome that is not `ok` is the result. -/
def Outcome.bind {α β : Type} (x : Outcome α) (k : α → Outcome β) : Outcome β :=
  match x with
  | .ok a => k a
  | .error e => .error e
  | .panic p => .panic p
  | .outOfFuel => .outOfFuel

/-- The `switch` of `FromBytes` applied to the fields `fs` in order, the first
of them starting at offset `off` of the backing array `arr`. -/
def applyFields (arr : List Byte) : Nat → List Field → DiscoveryResponse →
    Outcome DiscoveryResponse
  | _, [], resp => .ok resp
  | off, f :: fs, resp =>
    (applyField arr f.type_.val ⟨off + 3, off + 3 + f.value.length⟩ resp).bind
      (applyFields arr (off + 3 + f.value.length) fs)

/-- The response that C5 expects for one datagram: `FromBytes` applied to the
datagram on its own, read at once; `none` when it yields no response. -/
def decodeDatagram (datagram : List Byte) : Option ResponseValue :=
  match FromBytes ⟨datagram, []⟩ with
  | .ok (some r) => some (r.read datagram)
  | _ => none

/-- The list that C5 expects `Discover` to return: the responses of the
datagrams that decode, in arrival order. -/
def expectedResponses (datagrams : List (List Byte)) : List ResponseValue :=
  datagrams.filterMap decodeDatagram

/-- The last field of `fs`, in byte order, that satisfies `p`. -/
def lastField (p : Field → Bool) (fs : List Field) : Option Field :=
  fs.reverse.find? p

/-- The field carries a MAC: its type is 0x01 or 0x02. -/
def bearsMAC (f : Field) : Bool :=
  decide (f.type_.val = FieldTypeMAC ∨ f.type_.val = FieldTypeMACAndIP)

/-- The field has the type code `t`. -/
def hasType (t : FieldType) (f : Field) : Bool :=
  decide (f.type_.val = t)

/-- The type codes that the `switch` of `FromBytes` names: 0x01, 0x02, 0x03,
0x0b, 0x0c, 0x0d, 0x14. -/
def recognised (t : FieldType) : Bool :=
  decide (t = FieldTypeMAC ∨ t = FieldTypeMACAndIP ∨ t = FieldTypeFirmware ∨
    t = FieldTypeRadioName ∨ t = FieldTypeModelShort ∨ t = FieldTypeESSID ∨
    t = FieldTypeModelFull)

/-- One iteration of the `for` loop of `FromBytes` (lines 102-144) at
`offset`: the offset behind the field and the response after the `switch`,
or the error or panic that ends the call. -/
def fieldStep (d : ByteSlice) (offset : Nat) (resp : DiscoveryResponse) :
    Outcome (Nat × DiscoveryResponse) :=
  match d.data[offset]? with
  | none => .panic (.indexOutOfRange offset d.len)
  | some t =>
    if offset + 1 + 2 > d.cap then .panic (.sliceBoundsOutOfRange (offset + 1 + 2) d.cap)
    else
      (BigEndianUint16 (View.bytes d.backing ⟨offset + 1, offset + 1 + 2⟩)).bind fun fieldLen =>
        if offset + 1 + 2 + fieldLen > d.cap then
          .panic (.sliceBoundsOutOfRange (offset + 1 + 2 + fieldLen) d.cap)
        else
          (applyField d.backing t.val ⟨offset + 1 + 2, offset + 1 + 2 + fieldLen⟩ resp).bind
            fun resp => .ok (offset + 1 + 2 + fieldLen, resp)

/-- The number of iterations of the loop of `FromBytes`, started at `offset`,
that run to their end without returning (at most `fuel` of them are counted). -/
def fieldLoopIterations (d : ByteSlice) : Nat → Nat → DiscoveryResponse → Nat
  | 0, _, _ => 0
  | fuel + 1, offset, resp =>
    if offset ≥ d.len then 0
    else
      match fieldStep d offset resp with
      | .ok (offset, resp) => 1 + fieldLoopIterations d fuel offset resp
      | _ => 0

/-- The shape of the `MAC` and `IP` members of a response decoded from a
buffer of capacity `cap`: a MAC is a 6-byte sub-slice, an IP is 16 fresh bytes
or a 16-byte sub-slice, both inside the capacity. -/
def DiscoveryResponse.wellShaped (cap : Nat) (r : DiscoveryResponse) : Prop :=
  (∀ v, r.MAC = some v → v.hi = v.lo + 6 ∧ v.hi ≤ cap) ∧
  (∀ bs, r.IP = some (.fresh bs) → bs.length = 16) ∧
  (∀ v, r.IP = some (.shared v) → v.hi = v.lo + 16 ∧ v.hi ≤ cap)

/-! ## Auxiliary lemmas -/

@[simp] theorem Outcome.bind_ok {α β : Type} (a : α) (k : α → Outcome β) :
    (Outcome.ok a).bind k = k a := rfl

@[simp] theorem Outcome.bind_error {α β : Type} (e : DecodeError) (k : α → Outcome β) :
    (Outcome.error e : Outcome α).bind k = .error e := rfl

@[simp] theorem Outcome.bind_panic {α β : Type} (p : Panic) (k : α → Outcome β) :
    (Outcome.panic p : Outcome α).bind k = .panic p := rfl

@[simp] theorem Outcome.bind_outOfFuel {α β : Type} (k : α → Outcome β) :
    (Outcome.outOfFuel : Outcome α).bind k = .outOfFuel := rfl

theorem View.bytes_mid (a b c : List Byte) :
    View.bytes (a ++ b ++ c) ⟨a.length, a.length + b.length⟩ = b := by
  simp [View.bytes, List.append_assoc]

theorem length_encodeField (f : Field) : (encodeField f).length = 3 + f.value.length := by
  simp [encodeField, lengthBytes]; omega

theorem length_encodeFields_ge (fs : List Field) : 3 * fs.length ≤ (encodeFields fs).length := by
  induction fs with
  | nil => simp [encodeFields]
  | cons f fs ih => simp [encodeFields, length_encodeField]; omega

theorem length_value_le_encodeFields (fs : List Field) (f : Field) (hf : f ∈ fs) :
    3 + f.value.length ≤ (encodeFields fs).length := by
  induction fs with
  | nil => cases hf
  | cons g gs ih =>
    simp only [encodeFields, List.length_append, length_encodeField]
    rcases List.mem_cons.mp hf with h | h
    · subst h; omega
    · have := ih h; omega

theorem encodeFields_append (fs gs : List Field) :
    encodeFields (fs ++ gs) = encodeFields fs ++ encodeFields gs := by
  induction fs with
  | nil => simp [encodeFields]
  | cons f fs ih => simp [encodeFields, ih, List.append_assoc]

theorem BigEndianUint16_lengthBytes (n : Nat) (hn : n < 65536) :
    BigEndianUint16 (lengthBytes n) = .ok n := by
  simp only [BigEndianUint16, lengthBytes]
  congr 1
  omega

/-- One iteration of the loop on a well-delimited field: the field that starts
at offset `pre.length` is handed to the `switch` with its value as `data`. -/
theorem fieldLoop_step (d : ByteSlice) (pre post : List Byte) (f : Field)
    (hlen : f.value.length < 65536) (hd : d.data = pre ++ encodeField f ++ post)
    (fuel : Nat) (resp : DiscoveryResponse) :
    fieldLoop d (fuel + 1) pre.length resp =
      (applyField d.backing f.type_.val
          ⟨pre.length + 3, pre.length + 3 + f.value.length⟩ resp).bind
        (fieldLoop d fuel (pre.length + 3 + f.value.length)) := by
  have hlenD : d.len = pre.length + (3 + f.value.length) + post.length := by
    simp [ByteSlice.len, hd, length_encodeField]; omega
  have hcap : d.cap = pre.length + (3 + f.value.length) + post.length + d.spare.length := by
    simp [ByteSlice.cap, hd, length_encodeField]; omega
  have hget : d.data[pre.length]? = some f.type_ := by
    rw [hd, List.append_assoc, List.getElem?_append_right (Nat.le_refl _)]
    simp [encodeField]
  have hback : d.backing
      = (pre ++ [f.type_]) ++ lengthBytes f.value.length ++ (f.value ++ post ++ d.spare) := by
    simp [ByteSlice.backing, hd, encodeField, List.append_assoc]
  have hview : View.bytes d.backing ⟨pre.length + 1, pre.length + 1 + 2⟩
      = lengthBytes f.value.length := by
    rw [hback]
    have := View.bytes_mid (pre ++ [f.type_]) (lengthBytes f.value.length)
      (f.value ++ post ++ d.spare)
    simpa [lengthBytes] using this
  rw [fieldLoop]
  have h1 : ¬ pre.length ≥ d.len := by omega
  have h2 : ¬ pre.length + 1 + 2 > d.cap := by omega
  have h3 : ¬ pre.length + 1 + 2 + f.value.length > d.cap := by omega
  simp only [h1, if_false, hget, h2, hview, BigEndianUint16_lengthBytes _ hlen, h3]
  cases applyField d.backing f.type_.val
    ⟨pre.length + 3, pre.length + 3 + f.value.length⟩ resp <;> rfl

/-- The loop stops with the response built so far once the offset has
reached the end of the buffer. -/
theorem fieldLoop_done (d : ByteSlice) (fuel offset : Nat) (resp : DiscoveryResponse)
    (h : d.len ≤ offset) : fieldLoop d (fuel + 1) offset resp = .ok resp := by
  rw [fieldLoop]; simp [h]

/-- The loop on a run of well-delimited fields is the `switch` applied to the
fields in order, followed by the loop at the offset behind them. -/
theorem fieldLoop_fields (d : ByteSlice) (fs : List Field) :
    ∀ (pre post : List Byte) (resp : DiscoveryResponse) (fuel : Nat),
      d.data = pre ++ encodeFields fs ++ post →
      (∀ f ∈ fs, f.value.length < 65536) →
      fieldLoop d (fs.length + fuel) pre.length resp
        = (applyFields d.backing pre.length fs resp).bind
            (fieldLoop d fuel (pre.length + (encodeFields fs).length)) := by
  induction fs with
  | nil => intro pre post resp fuel _ _; simp [encodeFields, applyFields]
  | cons f fs ih =>
    intro pre post resp fuel hd hlen
    have hd1 : d.data = pre ++ encodeField f ++ (encodeFields fs ++ post) := by
      simp [hd, encodeFields, List.append_assoc]
    have hd2 : d.data = (pre ++ encodeField f) ++ encodeFields fs ++ post := by
      simp [hd, encodeFields, List.append_assoc]
    have e1 : (f :: fs).length + fuel = (fs.length + fuel) + 1 := by simp; omega
    rw [e1, fieldLoop_step d pre (encodeFields fs ++ post) f
      (hlen f (List.mem_cons_self _ _)) hd1, applyFields]
    cases applyField d.backing f.type_.val
      ⟨pre.length + 3, pre.length + 3 + f.value.length⟩ resp with
    | ok r1 =>
      have h := ih (pre ++ encodeField f) post r1 fuel hd2
        (fun g hg => hlen g (List.mem_cons_of_mem _ hg))
      simp only [List.length_append, length_encodeField] at h
      have e2 : pre.length + (3 + f.value.length) = pre.length + 3 + f.value.length := by omega
      have e3 : pre.length + (3 + f.value.length + (encodeFields fs).length)
          = pre.length + 3 + f.value.length + (encodeFields fs).length := by omega
      rw [e2] at h
      simp only [Outcome.bind_ok, encodeFields, List.length_append, length_encodeField]
      rw [e3]
      exact h
    | error e => rfl
    | panic p => rfl
    | outOfFuel => rfl

/-- `FromBytes` on a buffer that passes the header and the length checks:
the result is that of the field loop started at offset 4. -/
theorem FromBytes_frame (L : Byte) (payload spare : List Byte)
    (hL : L.val = payload.length) (hne : payload ≠ []) :
    FromBytes ⟨DiscoveryHeader ++ L :: payload, spare⟩ =
      (fieldLoop ⟨DiscoveryHeader ++ L :: payload, spare⟩ (4 + payload.length) 4
          NewDiscoveryResponse).bind (fun resp => .ok (some resp)) := by
  have hpos : payload.length ≠ 0 := by
    intro h; exact hne (List.length_eq_zero.mp h)
  have hL0 : L.val ≠ 0 := by omega
  have e4 : 3 + (1 + payload.length) = 4 + payload.length := by omega
  have e5 : payload.length + 1 + 1 + 1 + 1 = 4 + payload.length := by omega
  simp [FromBytes, ByteSlice.len, DiscoveryHeader, hL0, hL, e4]
  rw [if_neg (by omega), if_neg hne, e5]
  cases fieldLoop ⟨1 :: 0 :: 0 :: L :: payload, spare⟩ (4 + payload.length) 4
    NewDiscoveryResponse <;> rfl

/-- `FromBytes` on a frame whose payload is exactly a sequence of fields: the
result is the `switch` applied to the fields in order. -/
theorem FromBytes_fields (L : Byte) (fs : List Field) (spare : List Byte)
    (hL : L.val = (encodeFields fs).length) (hne : fs ≠ []) :
    FromBytes ⟨DiscoveryHeader ++ L :: encodeFields fs, spare⟩ =
      (applyFields (DiscoveryHeader ++ L :: encodeFields fs ++ spare) 4 fs
          NewDiscoveryResponse).bind (fun resp => .ok (some resp)) := by
  have hlt := L.isLt
  have hge := length_encodeFields_ge fs
  have hpos : 0 < fs.length := List.length_pos.mpr hne
  have hne2 : encodeFields fs ≠ [] := by
    intro h
    have h0 : (encodeFields fs).length = 0 := by rw [h]; rfl
    omega
  have hlen : ∀ f ∈ fs, f.value.length < 65536 := by
    intro f hf; have := length_value_le_encodeFields fs f hf; omega
  rw [FromBytes_frame L _ spare hL hne2]
  have hfuel : 4 + (encodeFields fs).length
      = fs.length + (4 + (encodeFields fs).length - fs.length) := by omega
  have hfuel2 : 4 + (encodeFields fs).length - fs.length
      = (4 + (encodeFields fs).length - fs.length - 1) + 1 := by omega
  have hd : (ByteSlice.mk (DiscoveryHeader ++ L :: encodeFields fs) spare).data
      = (DiscoveryHeader ++ [L]) ++ encodeFields fs ++ [] := by simp
  have h := fieldLoop_fields ⟨DiscoveryHeader ++ L :: encodeFields fs, spare⟩ fs
    (DiscoveryHeader ++ [L]) [] NewDiscoveryResponse
    (4 + (encodeFields fs).length - fs.length) hd hlen
  rw [← hfuel] at h
  have e : (DiscoveryHeader ++ [L]).length = 4 := rfl
  rw [e] at h
  rw [h]
  simp only [ByteSlice.backing]
  cases applyFields (DiscoveryHeader ++ L :: encodeFields fs ++ spare) 4 fs
      NewDiscoveryResponse with
  | ok r =>
    have hdone := fieldLoop_done ⟨DiscoveryHeader ++ L :: encodeFields fs, spare⟩
      (4 + (encodeFields fs).length - fs.length - 1) (4 + (encodeFields fs).length) r
      (by simp [ByteSlice.len, DiscoveryHeader]; omega)
    simp only [Outcome.bind_ok]
    rw [hfuel2, hdone]
    rfl
  | error e => rfl
  | panic p => rfl
  | outOfFuel => rfl

theorem applyFields_append (arr : List Byte) (fs gs : List Field) :
    ∀ (off : Nat) (resp : DiscoveryResponse),
      applyFields arr off (fs ++ gs) resp
        = (applyFields arr off fs resp).bind
            (applyFields arr (off + (encodeFields fs).length) gs) := by
  induction fs with
  | nil => intro off resp; simp [applyFields, encodeFields]
  | cons f fs ih =>
    intro off resp
    rw [List.cons_append, applyFields, applyFields]
    simp only [encodeFields, List.length_append, length_encodeField]
    cases applyField arr f.type_.val ⟨off + 3, off + 3 + f.value.length⟩ resp with
    | ok r =>
      simp only [Outcome.bind_ok]
      rw [ih]
      have e : off + 3 + f.value.length + (encodeFields fs).length
          = off + (3 + f.value.length + (encodeFields fs).length) := by omega
      rw [e]
    | error e => rfl
    | panic p => rfl
    | outOfFuel => rfl

/-- The `switch` accepts a field that meets the length conditions, provided
its value lies inside the backing array. -/
theorem applyField_wellFormed (arr : List Byte) (f : Field) (lo : Nat)
    (resp : DiscoveryResponse) (hwf : f.wellFormed)
    (hin : lo + f.value.length ≤ arr.length) :
    ∃ r, applyField arr f.type_.val ⟨lo, lo + f.value.length⟩ resp = .ok r := by
  obtain ⟨h1, h2⟩ := hwf
  unfold applyField
  by_cases t1 : f.type_.val = FieldTypeMAC
  · have := h1 t1
    simp [t1, View.len, this]
  · by_cases t2 : f.type_.val = FieldTypeMACAndIP
    · rcases h2 t2 with h | h
      · have hl : (View.bytes arr ⟨lo + MACLen, lo + f.value.length⟩).length = 4 := by
          simp [View.bytes, h, MACLen, IPv4len] at hin ⊢; omega
        match hb : View.bytes arr ⟨lo + MACLen, lo + f.value.length⟩, hl with
        | [a, b, c, e], _ =>
          simp [t1, t2, View.len, h, MACLen, IPv4len, FieldTypeMAC, FieldTypeMACAndIP] at hb ⊢
          simp [MACLen, hb]
      · simp [t1, t2, View.len, h, MACLen, IPv4len, IPv6len, FieldTypeMAC, FieldTypeMACAndIP]
    · simp only [t1, t2, if_false]
      split_ifs <;> exact ⟨_, rfl⟩

/-- The `switch` accepts a run of fields that meet the length conditions. -/
theorem applyFields_wellFormed (arr : List Byte) (fs : List Field) :
    ∀ (off : Nat) (resp : DiscoveryResponse),
      (∀ f ∈ fs, f.wellFormed) → off + (encodeFields fs).length ≤ arr.length →
      ∃ r, applyFields arr off fs resp = .ok r := by
  induction fs with
  | nil => intro off resp _ _; exact ⟨resp, rfl⟩
  | cons f fs ih =>
    intro off resp hwf hin
    simp only [encodeFields, List.length_append, length_encodeField] at hin
    obtain ⟨r1, hr1⟩ := applyField_wellFormed arr f (off + 3) resp
      (hwf f (List.mem_cons_self _ _)) (by omega)
    obtain ⟨r, hr⟩ := ih (off + 3 + f.value.length) r1
      (fun g hg => hwf g (List.mem_cons_of_mem _ hg)) (by omega)
    exact ⟨r, by simp [applyFields, hr1, hr]⟩

/-- The `switch` on a field of type 0x02 with at least 10 value bytes whose
address part has neither 4 nor 16 bytes. -/
theorem applyField_badAddress (arr : List Byte) (lo n : Nat) (resp : DiscoveryResponse)
    (h10 : MACLen + IPv4len ≤ n) (h4 : n - MACLen ≠ IPv4len) (h16 : n - MACLen ≠ IPv6len) :
    applyField arr FieldTypeMACAndIP ⟨lo, lo + n⟩ resp
      = .error (.invalidIPv6Length IPv6len (n - MACLen)) := by
  have e : lo + n - (lo + MACLen) = n - MACLen := by omega
  have hn : ¬ n < MACLen + IPv4len := by omega
  simp [applyField, FieldTypeMAC, FieldTypeMACAndIP, View.len, hn, e, h4, h16]

theorem FromBytes_short (d : ByteSlice) (h : d.len < 4) :
    FromBytes d = .error (.shortBuffer d.len) := by
  simp [FromBytes, h]

theorem FromBytes_badHeader (d : ByteSlice) (h4 : 4 ≤ d.len)
    (hh : d.data.take 3 ≠ [0x01, 0x00, 0x00]) :
    FromBytes d = .error .notDiscoveryResponse := by
  have h : ¬ d.len < 4 := by omega
  simp only [FromBytes, h, if_false]
  rw [if_pos]
  simpa [DiscoveryHeader] using hh

theorem FromBytes_probe (d : ByteSlice) (h4 : 4 ≤ d.len)
    (hh : d.data.take 3 = [0x01, 0x00, 0x00]) (h0 : d.data[3]? = some 0) :
    FromBytes d = .ok none := by
  have h : ¬ d.len < 4 := by omega
  have hh2 : ¬ List.take DiscoveryHeader.length d.data ≠ DiscoveryHeader := by
    simpa [DiscoveryHeader] using hh
  simp only [FromBytes, h, if_false, hh2, h0]
  simp

theorem FromBytes_lengthMismatch (d : ByteSlice) (l : Byte) (h4 : 4 ≤ d.len)
    (hh : d.data.take 3 = [0x01, 0x00, 0x00]) (hl : d.data[3]? = some l)
    (h0 : l.val ≠ 0) (hne : l.val ≠ d.len - 4) :
    FromBytes d = .error (.invalidPayloadLength l.val (d.len - 4)) := by
  have h : ¬ d.len < 4 := by omega
  have hh2 : ¬ List.take DiscoveryHeader.length d.data ≠ DiscoveryHeader := by
    simpa [DiscoveryHeader] using hh
  have e : d.len - DiscoveryHeader.length - 1 = d.len - 4 := by
    simp [DiscoveryHeader]; omega
  simp only [FromBytes, h, if_false, hh2, hl, h0, e]
  rw [if_pos (fun h => hne h.symm)]

theorem Outcome.bind_eq_ok {α β : Type} (x : Outcome α) (k : α → Outcome β) (b : β) :
    x.bind k = .ok b ↔ ∃ a, x = .ok a ∧ k a = .ok b := by
  cases x <;> simp [Outcome.bind]

theorem lastField_nil (p : Field → Bool) : lastField p [] = none := rfl

theorem lastField_cons (p : Field → Bool) (f : Field) (fs : List Field) :
    lastField p (f :: fs) = (lastField p fs).or (if p f then some f else none) := by
  simp only [lastField, List.reverse_cons, List.find?_append, List.find?_cons, List.find?_nil]
  cases p f <;> rfl

/-- The last field that satisfies `p` has no later field that satisfies `p`. -/
theorem lastField_eq_some (p : Field → Bool) (pre post : List Field) (f : Field)
    (hf : p f = true) (hpost : ∀ g ∈ post, p g = false) :
    lastField p (pre ++ f :: post) = some f := by
  induction pre with
  | nil =>
    rw [List.nil_append, lastField_cons, hf]
    have hn : lastField p post = none := by
      simp only [lastField, List.find?_eq_none, List.mem_reverse]
      intro g hg; simp [hpost g hg]
    simp [hn]
  | cons g gs ih => rw [List.cons_append, lastField_cons, ih]; rfl

theorem lastField_eq_none (p : Field → Bool) (fs : List Field)
    (h : ∀ g ∈ fs, p g = false) : lastField p fs = none := by
  simp only [lastField, List.find?_eq_none, List.mem_reverse]
  intro g hg; simp [h g hg]

/-- The `switch` rejects a field of type 0x01 whose value has not 6 bytes. -/
theorem applyField_badMAC (arr : List Byte) (lo n : Nat) (resp : DiscoveryResponse)
    (h6 : n ≠ MACLen) :
    applyField arr FieldTypeMAC ⟨lo, lo + n⟩ resp = .error (.shortMAC MACLen n) := by
  simp [applyField, View.len, h6]

/-- The `switch` rejects a field that breaks the length conditions. -/
theorem applyField_not_wellFormed (arr : List Byte) (f : Field) (lo : Nat)
    (resp : DiscoveryResponse) (hwf : ¬ f.wellFormed) :
    ∃ e, applyField arr f.type_.val ⟨lo, lo + f.value.length⟩ resp = .error e := by
  unfold Field.wellFormed at hwf
  by_cases t1 : f.type_.val = FieldTypeMAC
  · have h6 : f.value.length ≠ MACLen := by
      intro h; apply hwf; refine ⟨fun _ => h, fun t2 => ?_⟩
      rw [t1] at t2; exact absurd t2 (by decide)
    exact ⟨_, by rw [t1]; exact applyField_badMAC arr lo _ resp h6⟩
  · by_cases t2 : f.type_.val = FieldTypeMACAndIP
    · have hne : ¬ (f.value.length = MACLen + IPv4len ∨ f.value.length = MACLen + IPv6len) := by
        intro h; apply hwf; exact ⟨fun h1 => absurd h1 t1, fun _ => h⟩
      simp only [MACLen, IPv4len, IPv6len] at hne
      by_cases h10 : f.value.length < 10
      · refine ⟨.shortMACAndIP 10 f.value.length, ?_⟩
        simp [applyField, t2, FieldTypeMAC, FieldTypeMACAndIP, View.len, MACLen, IPv4len, h10]
      · refine ⟨.invalidIPv6Length IPv6len (f.value.length - MACLen), ?_⟩
        rw [t2]
        exact applyField_badAddress arr lo _ resp (by simp [MACLen, IPv4len]; omega)
          (by simp [MACLen, IPv4len]; omega) (by simp [MACLen, IPv6len]; omega)
    · exact absurd ⟨fun h => absurd h t1, fun h => absurd h t2⟩ hwf

/-- The `switch` applied to a run of fields stops with an error as soon as
one of them breaks the length conditions. -/
theorem applyFields_not_wellFormed (arr : List Byte) (fs : List Field) :
    ∀ (off : Nat) (resp : DiscoveryResponse),
      (¬ ∀ f ∈ fs, f.wellFormed) → off + (encodeFields fs).length ≤ arr.length →
      ∃ e, applyFields arr off fs resp = .error e := by
  induction fs with
  | nil => intro off resp h _; exact absurd (fun f hf => by cases hf) h
  | cons f fs ih =>
    intro off resp hbad hin
    simp only [encodeFields, List.length_append, length_encodeField] at hin
    by_cases hf : f.wellFormed
    · obtain ⟨r1, hr1⟩ := applyField_wellFormed arr f (off + 3) resp hf (by omega)
      have hbad2 : ¬ ∀ g ∈ fs, g.wellFormed := by
        intro h; apply hbad; intro g hg
        rcases List.mem_cons.mp hg with rfl | hg
        · exact hf
        · exact h g hg
      obtain ⟨e, he⟩ := ih (off + 3 + f.value.length) r1 hbad2 (by omega)
      exact ⟨e, by simp [applyFields, hr1, he]⟩
    · obtain ⟨e, he⟩ := applyField_not_wellFormed arr f (off + 3) resp hf
      exact ⟨e, by simp [applyFields, he]⟩

theorem length_frame (L : Byte) (payload spare : List Byte) :
    (DiscoveryHeader ++ L :: payload ++ spare).length = 4 + payload.length + spare.length := by
  simp [DiscoveryHeader]; omega

/-- On a frame whose payload is exactly a sequence of fields, `FromBytes`
returns a response when every field meets the length conditions of the
`switch`, and an error otherwise. -/
theorem FromBytes_fields_cases (L : Byte) (fs : List Field) (spare : List Byte)
    (hL : L.val = (encodeFields fs).length) (hne : fs ≠ []) :
    ((∀ f ∈ fs, f.wellFormed) ∧
      ∃ r, FromBytes ⟨DiscoveryHeader ++ L :: encodeFields fs, spare⟩ = .ok (some r)) ∨
    ((¬ ∀ f ∈ fs, f.wellFormed) ∧
      ∃ e, FromBytes ⟨DiscoveryHeader ++ L :: encodeFields fs, spare⟩ = .error e) := by
  have hin : 4 + (encodeFields fs).length
      ≤ (DiscoveryHeader ++ L :: encodeFields fs ++ spare).length := by
    rw [length_frame]; omega
  rw [FromBytes_fields L fs spare hL hne]
  by_cases hwf : ∀ f ∈ fs, f.wellFormed
  · obtain ⟨r, hr⟩ := applyFields_wellFormed
      (DiscoveryHeader ++ L :: encodeFields fs ++ spare) fs 4 NewDiscoveryResponse hwf hin
    exact Or.inl ⟨hwf, r, by rw [hr]; rfl⟩
  · obtain ⟨e, he⟩ := applyFields_not_wellFormed
      (DiscoveryHeader ++ L :: encodeFields fs ++ spare) fs 4 NewDiscoveryResponse hwf hin
    exact Or.inr ⟨hwf, e, by rw [he]; rfl⟩

theorem applyField_ok (arr : List Byte) (t : FieldType) (data : View)
    (resp r : DiscoveryResponse) (h : applyField arr t data resp = .ok r) :
    (t = FieldTypeMAC ∧ data.len = 6 ∧ r = { resp with MAC := some data }) ∨
    (t = FieldTypeMACAndIP ∧ data.len = 10 ∧ ∃ a b c d,
      View.bytes arr ⟨data.lo + 6, data.hi⟩ = [a, b, c, d] ∧
      r = { resp with MAC := some ⟨data.lo, data.lo + 6⟩,
                      IP := some (.fresh (IPv4 a b c d)) }) ∨
    (t = FieldTypeMACAndIP ∧ data.len = 22 ∧
      r = { resp with MAC := some ⟨data.lo, data.lo + 6⟩,
                      IP := some (.shared ⟨data.lo + 6, data.hi⟩) }) ∨
    (t = FieldTypeFirmware ∧ r = { resp with Firmware := data.bytes arr }) ∨
    (t = FieldTypeRadioName ∧ r = { resp with RadioName := data.bytes arr }) ∨
    (t = FieldTypeModelShort ∧ r = { resp with ModelShort := data.bytes arr }) ∨
    (t = FieldTypeModelFull ∧ r = { resp with ModelFull := data.bytes arr }) ∨
    (t = FieldTypeESSID ∧ r = { resp with ESSID := data.bytes arr }) ∨
    (recognised t = false ∧ r = { resp with Unknown := mapSet resp.Unknown t data }) := by
  unfold applyField at h
  dsimp only at h
  split_ifs at h with h1 h2 h3 h4 h5 h6 h7 h8 h9 h10 h11
  · simp only [Outcome.ok.injEq] at h
    simp only [MACLen, ne_eq, Decidable.not_not] at h2
    exact Or.inl ⟨h1, h2, h.symm⟩
  · split at h
    · simp only [Outcome.ok.injEq] at h
      rename_i a b c d hb
      refine Or.inr (Or.inl ⟨h3, ?_, a, b, c, d, hb, h.symm⟩)
      simp only [View.len, MACLen, IPv4len] at h4 h5 ⊢; omega
    · cases h
  · simp only [Outcome.ok.injEq] at h
    refine Or.inr (Or.inr (Or.inl ⟨h3, ?_, h.symm⟩))
    simp only [View.len, MACLen, IPv4len, IPv6len] at h4 h5 h6 ⊢; omega
  · simp only [Outcome.ok.injEq] at h
    exact Or.inr (Or.inr (Or.inr (Or.inl ⟨h7, h.symm⟩)))
  · simp only [Outcome.ok.injEq] at h
    exact Or.inr (Or.inr (Or.inr (Or.inr (Or.inl ⟨h8, h.symm⟩))))
  · simp only [Outcome.ok.injEq] at h
    exact Or.inr (Or.inr (Or.inr (Or.inr (Or.inr (Or.inl ⟨h9, h.symm⟩)))))
  · simp only [Outcome.ok.injEq] at h
    exact Or.inr (Or.inr (Or.inr (Or.inr (Or.inr (Or.inr (Or.inl ⟨h10, h.symm⟩))))))
  · simp only [Outcome.ok.injEq] at h
    exact Or.inr (Or.inr (Or.inr (Or.inr (Or.inr (Or.inr (Or.inr (Or.inl ⟨h11, h.symm⟩)))))))
  · simp only [Outcome.ok.injEq] at h
    refine Or.inr (Or.inr (Or.inr (Or.inr (Or.inr (Or.inr (Or.inr (Or.inr ⟨?_, h.symm⟩)))))))
    simp [recognised, h1, h3, h7, h8, h9, h10, h11]

theorem View.bytes_take (arr v : List Byte) (lo n m : Nat)
    (h : View.bytes arr ⟨lo, lo + n⟩ = v) (hm : m ≤ n) :
    View.bytes arr ⟨lo, lo + m⟩ = v.take m := by
  simp only [View.bytes, Nat.add_sub_cancel_left] at h ⊢
  rw [← h, List.take_take, Nat.min_eq_left hm]

theorem View.bytes_drop (arr v : List Byte) (lo n m : Nat)
    (h : View.bytes arr ⟨lo, lo + n⟩ = v) (hm : m ≤ n) :
    View.bytes arr ⟨lo + m, lo + n⟩ = v.drop m := by
  simp only [View.bytes, Nat.add_sub_cancel_left] at h ⊢
  have e : lo + n - (lo + m) = n - m := by omega
  rw [← h, e, List.drop_take, List.drop_drop]

/-- The value of a field is what the loop hands to the `switch` as `data`. -/
theorem View.bytes_field (pre post : List Byte) (f : Field) :
    View.bytes (pre ++ encodeField f ++ post)
      ⟨pre.length + 3, pre.length + 3 + f.value.length⟩ = f.value := by
  have h := View.bytes_mid (pre ++ f.type_ :: lengthBytes f.value.length) f.value post
  have e : (pre ++ f.type_ :: lengthBytes f.value.length).length = pre.length + 3 := by
    simp [lengthBytes]
  rw [e] at h
  have key : pre ++ encodeField f ++ post
      = pre ++ f.type_ :: lengthBytes f.value.length ++ f.value ++ post := by
    simp [encodeField, List.append_assoc]
  rw [key]
  exact h

/-- A member of the response after the `switch` has run over a sequence of
fields: when each field either sets the member to `e f` (fields with `p f`) or
leaves it alone, the member ends as `e` of the last field with `p`. -/
theorem applyFields_last {α : Type} (arr : List Byte) (A : DiscoveryResponse → α)
    (p : Field → Bool) (e : Field → α)
    (hstep : ∀ (f : Field) (lo : Nat) (resp r : DiscoveryResponse),
      View.bytes arr ⟨lo, lo + f.value.length⟩ = f.value →
      applyField arr f.type_.val ⟨lo, lo + f.value.length⟩ resp = .ok r →
      A r = if p f then e f else A resp) (fs : List Field) :
    ∀ (pre post : List Byte) (resp r : DiscoveryResponse),
      arr = pre ++ encodeFields fs ++ post →
      applyFields arr pre.length fs resp = .ok r →
      A r = ((lastField p fs).map e).getD (A resp) := by
  induction fs with
  | nil =>
    intro pre post resp r _ h
    simp only [applyFields, Outcome.ok.injEq] at h
    simp [lastField_nil, h]
  | cons f fs ih =>
    intro pre post resp r harr h
    rw [applyFields, Outcome.bind_eq_ok] at h
    obtain ⟨r1, h1, h2⟩ := h
    have harr1 : arr = pre ++ encodeField f ++ (encodeFields fs ++ post) := by
      simp [harr, encodeFields, List.append_assoc]
    have harr2 : arr = (pre ++ encodeField f) ++ encodeFields fs ++ post := by
      simp [harr, encodeFields, List.append_assoc]
    have hb : View.bytes arr ⟨pre.length + 3, pre.length + 3 + f.value.length⟩ = f.value := by
      rw [harr1]; exact View.bytes_field pre _ f
    have hs := hstep f (pre.length + 3) resp r1 hb h1
    have hl : (pre ++ encodeField f).length = pre.length + 3 + f.value.length := by
      rw [List.length_append, length_encodeField]; omega
    rw [← hl] at h2
    have hi := ih (pre ++ encodeField f) post r1 r harr2 h2
    rw [hi, hs, lastField_cons]
    cases lastField p fs with
    | some g => simp
    | none => cases p f <;> simp

theorem lastField_split (p : Field → Bool) (fs : List Field) (g : Field)
    (h : lastField p fs = some g) :
    ∃ pre post, fs = pre ++ g :: post ∧ p g = true ∧ ∀ x ∈ post, p x = false := by
  induction fs with
  | nil => simp [lastField_nil] at h
  | cons f fs ih =>
    rw [lastField_cons] at h
    cases hl : lastField p fs with
    | some g1 =>
      rw [hl] at h
      simp only [Option.or_some, Option.some.injEq] at h
      subst h
      obtain ⟨pre, post, e, hp, hpost⟩ := ih hl
      exact ⟨f :: pre, post, by rw [e]; rfl, hp, hpost⟩
    | none =>
      rw [hl] at h
      simp only [Option.none_or] at h
      by_cases hf : p f = true
      · simp only [hf, if_true, Option.some.injEq] at h
        subst h
        refine ⟨[], fs, rfl, hf, ?_⟩
        intro x hx
        simp only [lastField, List.find?_eq_none, List.mem_reverse] at hl
        simpa using hl x hx
      · simp [hf] at h

theorem mapGet_mapSet (m : List (FieldType × View)) (t k : FieldType) (v : View) :
    mapGet (mapSet m t v) k = if t = k then some v else mapGet m k := by
  by_cases htk : t = k
  · simp [mapGet, mapSet, htk]
  · have htk2 : ¬ k = t := fun h => htk h.symm
    simp only [mapGet, mapSet, htk, if_false]
    rw [List.find?_cons]
    simp only [htk, decide_False]
    congr 1
    induction m with
    | nil => rfl
    | cons x xs ih =>
      by_cases hx : x.1 = t
      · have hxk : ¬ x.1 = k := fun h => htk (hx ▸ h)
        simp [List.filter_cons, List.find?_cons, hx, hxk, htk] at ih ⊢
        exact ih
      · by_cases hxk : x.1 = k
        · simp [List.filter_cons, List.find?_cons, hx, hxk, htk2]
        · simp [List.filter_cons, List.find?_cons, hx, hxk] at ih ⊢
          exact ih

/-- How one field changes the MAC that the response shows. -/
theorem applyField_MAC (arr : List Byte) (f : Field) (lo : Nat) (resp r : DiscoveryResponse)
    (hb : View.bytes arr ⟨lo, lo + f.value.length⟩ = f.value)
    (h : applyField arr f.type_.val ⟨lo, lo + f.value.length⟩ resp = .ok r) :
    r.MAC.map (View.bytes arr)
      = if bearsMAC f then some (f.value.take 6) else resp.MAC.map (View.bytes arr) := by
  have hlen : (View.mk lo (lo + f.value.length)).len = f.value.length := by simp [View.len]
  rcases applyField_ok _ _ _ _ _ h with
    ⟨ht, hl, rfl⟩ | ⟨ht, hl, a, b, c, d, _, rfl⟩ | ⟨ht, hl, rfl⟩ | ⟨ht, rfl⟩ | ⟨ht, rfl⟩ |
    ⟨ht, rfl⟩ | ⟨ht, rfl⟩ | ⟨ht, rfl⟩ | ⟨ht, rfl⟩
  · rw [hlen] at hl
    simp [bearsMAC, ht, hb, List.take_of_length_le (Nat.le_of_eq hl)]
  · rw [hlen] at hl
    simp [bearsMAC, ht, View.bytes_take arr f.value lo f.value.length 6 hb (by omega)]
  · rw [hlen] at hl
    simp [bearsMAC, ht, View.bytes_take arr f.value lo f.value.length 6 hb (by omega)]
  all_goals
    simp [bearsMAC, ht, FieldTypeMAC, FieldTypeMACAndIP, FieldTypeFirmware, FieldTypeRadioName,
      FieldTypeModelShort, FieldTypeModelFull, FieldTypeESSID, recognised] at ht ⊢
  simp [ht]

/-- The bytes that an `IP` member shows when the backing array holds `arr`. -/
theorem applyField_IP (arr : List Byte) (f : Field) (lo : Nat) (resp r : DiscoveryResponse)
    (hb : View.bytes arr ⟨lo, lo + f.value.length⟩ = f.value)
    (h : applyField arr f.type_.val ⟨lo, lo + f.value.length⟩ resp = .ok r) :
    (r.read arr).IP
      = if hasType FieldTypeMACAndIP f then
          some (if f.value.length = 10 then v4InV6Prefix ++ f.value.drop 6 else f.value.drop 6)
        else (resp.read arr).IP := by
  have hlen : (View.mk lo (lo + f.value.length)).len = f.value.length := by simp [View.len]
  rcases applyField_ok _ _ _ _ _ h with
    ⟨ht, hl, rfl⟩ | ⟨ht, hl, a, b, c, d, hv, rfl⟩ | ⟨ht, hl, rfl⟩ | ⟨ht, rfl⟩ | ⟨ht, rfl⟩ |
    ⟨ht, rfl⟩ | ⟨ht, rfl⟩ | ⟨ht, rfl⟩ | ⟨ht, rfl⟩
  · simp [hasType, ht, DiscoveryResponse.read, FieldTypeMAC, FieldTypeMACAndIP]
  · rw [hlen] at hl
    have hd := View.bytes_drop arr f.value lo f.value.length 6 hb (by omega)
    simp only at hv
    rw [hv] at hd
    simp [hasType, ht, DiscoveryResponse.read, hl, IPv4, ← hd]
  · rw [hlen] at hl
    have hd := View.bytes_drop arr f.value lo f.value.length 6 hb (by omega)
    have h10 : ¬ f.value.length = 10 := by omega
    simp [hasType, ht, DiscoveryResponse.read, h10, hd]
  all_goals
    simp [hasType, ht, DiscoveryResponse.read, FieldTypeMAC, FieldTypeMACAndIP,
      FieldTypeFirmware, FieldTypeRadioName,
      FieldTypeModelShort, FieldTypeModelFull, FieldTypeESSID, recognised] at ht ⊢
  simp [ht]

/-- How one field changes what the `Unknown` map shows under the key `k`. -/
theorem applyField_Unknown (arr : List Byte) (k : FieldType) (f : Field) (lo : Nat)
    (resp r : DiscoveryResponse)
    (hb : View.bytes arr ⟨lo, lo + f.value.length⟩ = f.value)
    (h : applyField arr f.type_.val ⟨lo, lo + f.value.length⟩ resp = .ok r) :
    (mapGet r.Unknown k).map (View.bytes arr)
      = if (hasType k f && !recognised k) then some f.value
        else (mapGet resp.Unknown k).map (View.bytes arr) := by
  rcases applyField_ok _ _ _ _ _ h with
    ⟨ht, hl, rfl⟩ | ⟨ht, hl, a, b, c, d, hv, rfl⟩ | ⟨ht, hl, rfl⟩ | ⟨ht, rfl⟩ | ⟨ht, rfl⟩ |
    ⟨ht, rfl⟩ | ⟨ht, rfl⟩ | ⟨ht, rfl⟩ | ⟨ht, rfl⟩
  case inr.inr.inr.inr.inr.inr.inr.inr =>
    simp only [mapGet_mapSet]
    by_cases hk : f.type_.val = k
    · subst hk; simp [hasType, ht, hb]
    · simp [hasType, hk]
  all_goals
    have hr : recognised f.type_.val = true := by rw [ht]; decide
    by_cases hk : f.type_.val = k
    · rw [hk] at hr; simp [hr]
    · simp [hasType, hk]

/-- How one field changes the `Firmware` member. -/
theorem applyField_Firmware (arr : List Byte) (f : Field) (lo : Nat) (resp r : DiscoveryResponse)
    (hb : View.bytes arr ⟨lo, lo + f.value.length⟩ = f.value)
    (h : applyField arr f.type_.val ⟨lo, lo + f.value.length⟩ resp = .ok r) :
    r.Firmware = if hasType FieldTypeFirmware f then f.value else resp.Firmware := by
  rcases applyField_ok _ _ _ _ _ h with
    ⟨ht, hl, rfl⟩ | ⟨ht, hl, a, b, c, d, hv, rfl⟩ | ⟨ht, hl, rfl⟩ | ⟨ht, rfl⟩ | ⟨ht, rfl⟩ |
    ⟨ht, rfl⟩ | ⟨ht, rfl⟩ | ⟨ht, rfl⟩ | ⟨ht, rfl⟩
  all_goals
    simp [hasType, ht, hb, FieldTypeMAC, FieldTypeMACAndIP, FieldTypeFirmware,
      FieldTypeRadioName, FieldTypeModelShort, FieldTypeModelFull, FieldTypeESSID,
      recognised] at ht ⊢
  simp [ht]

/-- How one field changes the `RadioName` member. -/
theorem applyField_RadioName (arr : List Byte) (f : Field) (lo : Nat) (resp r : DiscoveryResponse)
    (hb : View.bytes arr ⟨lo, lo + f.value.length⟩ = f.value)
    (h : applyField arr f.type_.val ⟨lo, lo + f.value.length⟩ resp = .ok r) :
    r.RadioName = if hasType FieldTypeRadioName f then f.value else resp.RadioName := by
  rcases applyField_ok _ _ _ _ _ h with
    ⟨ht, hl, rfl⟩ | ⟨ht, hl, a, b, c, d, hv, rfl⟩ | ⟨ht, hl, rfl⟩ | ⟨ht, rfl⟩ | ⟨ht, rfl⟩ |
    ⟨ht, rfl⟩ | ⟨ht, rfl⟩ | ⟨ht, rfl⟩ | ⟨ht, rfl⟩
  all_goals
    simp [hasType, ht, hb, FieldTypeMAC, FieldTypeMACAndIP, FieldTypeFirmware,
      FieldTypeRadioName, FieldTypeModelShort, FieldTypeModelFull, FieldTypeESSID,
      recognised] at ht ⊢
  simp [ht]

/-- How one field changes the `ModelShort` member. -/
theorem applyField_ModelShort (arr : List Byte) (f : Field) (lo : Nat) (resp r : DiscoveryResponse)
    (hb : View.bytes arr ⟨lo, lo + f.value.length⟩ = f.value)
    (h : applyField arr f.type_.val ⟨lo, lo + f.value.length⟩ resp = .ok r) :
    r.ModelShort = if hasType FieldTypeModelShort f then f.value else resp.ModelShort := by
  rcases applyField_ok _ _ _ _ _ h with
    ⟨ht, hl, rfl⟩ | ⟨ht, hl, a, b, c, d, hv, rfl⟩ | ⟨ht, hl, rfl⟩ | ⟨ht, rfl⟩ | ⟨ht, rfl⟩ |
    ⟨ht, rfl⟩ | ⟨ht, rfl⟩ | ⟨ht, rfl⟩ | ⟨ht, rfl⟩
  all_goals
    simp [hasType, ht, hb, FieldTypeMAC, FieldTypeMACAndIP, FieldTypeFirmware,
      FieldTypeRadioName, FieldTypeModelShort, FieldTypeModelFull, FieldTypeESSID,
      recognised] at ht ⊢
  simp [ht]

/-- How one field changes the `ESSID` member. -/
theorem applyField_ESSID (arr : List Byte) (f : Field) (lo : Nat) (resp r : DiscoveryResponse)
    (hb : View.bytes arr ⟨lo, lo + f.value.length⟩ = f.value)
    (h : applyField arr f.type_.val ⟨lo, lo + f.value.length⟩ resp = .ok r) :
    r.ESSID = if hasType FieldTypeESSID f then f.value else resp.ESSID := by
  rcases applyField_ok _ _ _ _ _ h with
    ⟨ht, hl, rfl⟩ | ⟨ht, hl, a, b, c, d, hv, rfl⟩ | ⟨ht, hl, rfl⟩ | ⟨ht, rfl⟩ | ⟨ht, rfl⟩ |
    ⟨ht, rfl⟩ | ⟨ht, rfl⟩ | ⟨ht, rfl⟩ | ⟨ht, rfl⟩
  all_goals
    simp [hasType, ht, hb, FieldTypeMAC, FieldTypeMACAndIP, FieldTypeFirmware,
      FieldTypeRadioName, FieldTypeModelShort, FieldTypeModelFull, FieldTypeESSID,
      recognised] at ht ⊢
  simp [ht]

/-- How one field changes the `ModelFull` member. -/
theorem applyField_ModelFull (arr : List Byte) (f : Field) (lo : Nat) (resp r : DiscoveryResponse)
    (hb : View.bytes arr ⟨lo, lo + f.value.length⟩ = f.value)
    (h : applyField arr f.type_.val ⟨lo, lo + f.value.length⟩ resp = .ok r) :
    r.ModelFull = if hasType FieldTypeModelFull f then f.value else resp.ModelFull := by
  rcases applyField_ok _ _ _ _ _ h with
    ⟨ht, hl, rfl⟩ | ⟨ht, hl, a, b, c, d, hv, rfl⟩ | ⟨ht, hl, rfl⟩ | ⟨ht, rfl⟩ | ⟨ht, rfl⟩ |
    ⟨ht, rfl⟩ | ⟨ht, rfl⟩ | ⟨ht, rfl⟩ | ⟨ht, rfl⟩
  all_goals
    simp [hasType, ht, hb, FieldTypeMAC, FieldTypeMACAndIP, FieldTypeFirmware,
      FieldTypeRadioName, FieldTypeModelShort, FieldTypeModelFull, FieldTypeESSID,
      recognised] at ht ⊢
  simp [ht]

/-- A successful `FromBytes` on a frame whose payload is exactly a sequence of
fields: the response is the one the `switch` builds from the fields in order. -/
theorem FromBytes_fields_ok (L : Byte) (fs : List Field) (spare : List Byte)
    (r : DiscoveryResponse) (hL : L.val = (encodeFields fs).length)
    (hok : FromBytes ⟨DiscoveryHeader ++ L :: encodeFields fs, spare⟩ = .ok (some r)) :
    fs ≠ [] ∧
    applyFields (DiscoveryHeader ++ L :: encodeFields fs ++ spare) 4 fs NewDiscoveryResponse
      = .ok r := by
  by_cases hne : fs = []
  · subst hne
    have h0 : L = 0 := Fin.ext (by simpa [encodeFields] using hL)
    subst h0
    have hp := FromBytes_probe ⟨DiscoveryHeader ++ (0 : Byte) :: encodeFields [], spare⟩
      (by simp [ByteSlice.len, DiscoveryHeader, encodeFields]) (by rfl) (by rfl)
    rw [hp] at hok
    cases hok
  · rw [FromBytes_fields L fs spare hL hne, Outcome.bind_eq_ok] at hok
    obtain ⟨a, ha, he⟩ := hok
    simp only [Outcome.ok.injEq, Option.some.injEq] at he
    subst he
    exact ⟨hne, ha⟩

/-- A successful `FromBytes` has met the length conditions on every field. -/
theorem FromBytes_fields_wellFormed (L : Byte) (fs : List Field) (spare : List Byte)
    (r : DiscoveryResponse) (hL : L.val = (encodeFields fs).length)
    (hok : FromBytes ⟨DiscoveryHeader ++ L :: encodeFields fs, spare⟩ = .ok (some r)) :
    ∀ f ∈ fs, f.wellFormed := by
  have hne := (FromBytes_fields_ok L fs spare r hL hok).1
  rcases FromBytes_fields_cases L fs spare hL hne with ⟨hwf, _⟩ | ⟨_, e, he⟩
  · exact hwf
  · rw [he] at hok; cases hok

/-- A member of the response of a successful `FromBytes`: `e` of the last
field with `p`, or what the empty response shows. -/
theorem FromBytes_last {α : Type} (L : Byte) (fs : List Field) (spare : List Byte)
    (r : DiscoveryResponse) (A : DiscoveryResponse → α) (p : Field → Bool) (e : Field → α)
    (hstep : ∀ (f : Field) (lo : Nat) (resp r : DiscoveryResponse),
      View.bytes (DiscoveryHeader ++ L :: encodeFields fs ++ spare)
        ⟨lo, lo + f.value.length⟩ = f.value →
      applyField (DiscoveryHeader ++ L :: encodeFields fs ++ spare) f.type_.val
        ⟨lo, lo + f.value.length⟩ resp = .ok r →
      A r = if p f then e f else A resp)
    (hL : L.val = (encodeFields fs).length)
    (hok : FromBytes ⟨DiscoveryHeader ++ L :: encodeFields fs, spare⟩ = .ok (some r)) :
    A r = ((lastField p fs).map e).getD (A NewDiscoveryResponse) := by
  have h := (FromBytes_fields_ok L fs spare r hL hok).2
  exact applyFields_last _ A p e hstep fs (DiscoveryHeader ++ [L]) spare
    NewDiscoveryResponse r (by simp [List.append_assoc]) h

theorem BigEndianUint16_cases (b : List Byte) :
    (∃ n, BigEndianUint16 b = .ok n) ∨ (∃ p, BigEndianUint16 b = .panic p) := by
  unfold BigEndianUint16
  split
  · exact Or.inl ⟨_, rfl⟩
  · exact Or.inr ⟨_, rfl⟩

/-- The loop is the iteration body repeated while the offset is inside the buffer. -/
theorem fieldLoop_eq_step (d : ByteSlice) (fuel offset : Nat) (resp : DiscoveryResponse) :
    fieldLoop d (fuel + 1) offset resp =
      if offset ≥ d.len then .ok resp
      else (fieldStep d offset resp).bind (fun x => fieldLoop d fuel x.1 x.2) := by
  rw [fieldLoop, fieldStep]
  by_cases h1 : offset ≥ d.len
  · simp [h1]
  · simp only [h1, if_false]
    cases d.data[offset]? with
    | none => rfl
    | some t =>
      dsimp only
      by_cases h2 : offset + 1 + 2 > d.cap
      · simp [h2]
      · simp only [h2, if_false]
        cases BigEndianUint16 (View.bytes d.backing ⟨offset + 1, offset + 1 + 2⟩) with
        | ok n =>
          dsimp only [Outcome.bind]
          by_cases h3 : offset + 1 + 2 + n > d.cap
          · simp [h3]
          · simp only [h3, if_false]
            cases applyField d.backing t.val ⟨offset + 1 + 2, offset + 1 + 2 + n⟩ resp <;> rfl
        | error e => rfl
        | panic p => rfl
        | outOfFuel => rfl

/-- An iteration that runs to its end has read a type byte inside the buffer,
has taken a field that ends inside the capacity, and leaves the offset at
least 3 further. -/
theorem fieldStep_ok (d : ByteSlice) (offset o : Nat) (resp r : DiscoveryResponse)
    (h : fieldStep d offset resp = .ok (o, r)) :
    ∃ (t : Byte) (n : Nat), d.data[offset]? = some t ∧ o = offset + 3 + n ∧ o ≤ d.cap ∧
      applyField d.backing t.val ⟨offset + 3, offset + 3 + n⟩ resp = .ok r := by
  unfold fieldStep at h
  split at h
  · cases h
  · rename_i t ht
    split_ifs at h with h2
    rw [Outcome.bind_eq_ok] at h
    obtain ⟨n, _, h⟩ := h
    split_ifs at h with h3
    rw [Outcome.bind_eq_ok] at h
    obtain ⟨r1, hr1, h⟩ := h
    simp only [Outcome.ok.injEq, Prod.mk.injEq] at h
    obtain ⟨ho, hr⟩ := h
    subst hr
    have e : offset + 1 + 2 = offset + 3 := rfl
    rw [e] at hr1 ho h3
    exact ⟨t, n, ht, ho.symm, by omega, hr1⟩

theorem applyField_ne_outOfFuel (arr : List Byte) (t : FieldType) (data : View)
    (resp : DiscoveryResponse) : applyField arr t data resp ≠ .outOfFuel := by
  unfold applyField
  dsimp only
  split_ifs <;> first | exact Outcome.noConfusion | (split <;> exact Outcome.noConfusion)

theorem fieldStep_ne_outOfFuel (d : ByteSlice) (offset : Nat) (resp : DiscoveryResponse) :
    fieldStep d offset resp ≠ .outOfFuel := by
  unfold fieldStep
  split
  · exact Outcome.noConfusion
  · rename_i t _
    split_ifs
    · exact Outcome.noConfusion
    · rcases BigEndianUint16_cases (View.bytes d.backing ⟨offset + 1, offset + 1 + 2⟩) with
        ⟨n, hn⟩ | ⟨p, hp⟩
      · rw [hn, Outcome.bind_ok]
        split_ifs
        · exact Outcome.noConfusion
        · have := applyField_ne_outOfFuel d.backing t.val
            ⟨offset + 1 + 2, offset + 1 + 2 + n⟩ resp
          cases h : applyField d.backing t.val ⟨offset + 1 + 2, offset + 1 + 2 + n⟩ resp with
          | ok r => exact Outcome.noConfusion
          | error e => exact Outcome.noConfusion
          | panic p => exact Outcome.noConfusion
          | outOfFuel => exact absurd h this
      · rw [hp]; exact Outcome.noConfusion

/-- With fuel for one loop head more than a third of the bytes between
`offset` and the end of the buffer, rounded up, the loop ends. -/
theorem fieldLoop_ne_outOfFuel (d : ByteSlice) :
    ∀ (fuel offset : Nat) (resp : DiscoveryResponse),
      d.len ≤ offset + 3 * fuel → fieldLoop d (fuel + 1) offset resp ≠ .outOfFuel := by
  intro fuel
  induction fuel with
  | zero =>
    intro offset resp h
    rw [fieldLoop_eq_step, if_pos (by omega)]
    exact Outcome.noConfusion
  | succ n ih =>
    intro offset resp h
    rw [fieldLoop_eq_step]
    by_cases h1 : offset ≥ d.len
    · rw [if_pos h1]; exact Outcome.noConfusion
    · rw [if_neg h1]
      cases hs : fieldStep d offset resp with
      | ok x =>
        obtain ⟨o, r⟩ := x
        obtain ⟨t, m, _, ho, _, _⟩ := fieldStep_ok d offset o resp r hs
        rw [Outcome.bind_ok]
        exact ih o r (by omega)
      | error e => exact Outcome.noConfusion
      | panic p => exact Outcome.noConfusion
      | outOfFuel => exact absurd hs (fieldStep_ne_outOfFuel d offset resp)

/-- The bound `len(d)` on the iterations of the model of `FromBytes` is never reached. -/
theorem FromBytes_ne_outOfFuel (d : ByteSlice) : FromBytes d ≠ .outOfFuel := by
  unfold FromBytes
  split_ifs with h1 h2
  · exact Outcome.noConfusion
  · exact Outcome.noConfusion
  · split
    · exact Outcome.noConfusion
    · dsimp only
      split_ifs with h3 h4
      · exact Outcome.noConfusion
      · exact Outcome.noConfusion
      · have hlen : d.len = (d.len - 1) + 1 := by omega
        have hne := fieldLoop_ne_outOfFuel d (d.len - 1) (DiscoveryHeader.length + 1)
          NewDiscoveryResponse (by simp [DiscoveryHeader]; omega)
        rw [← hlen] at hne
        cases hf : fieldLoop d d.len (DiscoveryHeader.length + 1) NewDiscoveryResponse with
        | ok r => exact Outcome.noConfusion
        | error e => exact Outcome.noConfusion
        | panic p => exact Outcome.noConfusion
        | outOfFuel => exact absurd hf hne

theorem fieldLoopIterations_of_ge (d : ByteSlice) (fuel offset : Nat)
    (resp : DiscoveryResponse) (h : d.len ≤ offset) :
    fieldLoopIterations d fuel offset resp = 0 := by
  cases fuel with
  | zero => rfl
  | succ n => rw [fieldLoopIterations, if_pos h]

/-- The iterations that do not return are at most a third, rounded up, of the
bytes between `offset` and the end of the buffer. -/
theorem fieldLoopIterations_le (d : ByteSlice) :
    ∀ (fuel offset : Nat) (resp : DiscoveryResponse),
      3 * fieldLoopIterations d fuel offset resp ≤ (d.len - offset) + 2 := by
  intro fuel
  induction fuel with
  | zero => intro offset resp; simp [fieldLoopIterations]
  | succ n ih =>
    intro offset resp
    rw [fieldLoopIterations]
    by_cases h1 : offset ≥ d.len
    · rw [if_pos h1]; omega
    · rw [if_neg h1]
      cases hs : fieldStep d offset resp with
      | ok x =>
        obtain ⟨o, r⟩ := x
        obtain ⟨t, m, _, ho, _, _⟩ := fieldStep_ok d offset o resp r hs
        dsimp only
        by_cases h2 : d.len ≤ o
        · rw [fieldLoopIterations_of_ge d n o r h2]; omega
        · have := ih o r; omega
      | error e => dsimp only; omega
      | panic p => dsimp only; omega
      | outOfFuel => dsimp only; omega

/-- In a buffer without spare capacity the iterations that do not return are
at most a third of the bytes between `offset` and the end of the buffer. -/
theorem fieldLoopIterations_le_of_noSpare (d : ByteSlice) (hsp : d.spare = []) :
    ∀ (fuel offset : Nat) (resp : DiscoveryResponse),
      3 * fieldLoopIterations d fuel offset resp ≤ d.len - offset := by
  have hcap : d.cap = d.len := by simp [ByteSlice.cap, ByteSlice.len, hsp]
  intro fuel
  induction fuel with
  | zero => intro offset resp; simp [fieldLoopIterations]
  | succ n ih =>
    intro offset resp
    rw [fieldLoopIterations]
    by_cases h1 : offset ≥ d.len
    · rw [if_pos h1]; omega
    · rw [if_neg h1]
      cases hs : fieldStep d offset resp with
      | ok x =>
        obtain ⟨o, r⟩ := x
        obtain ⟨t, m, _, ho, hle, _⟩ := fieldStep_ok d offset o resp r hs
        dsimp only
        have := ih o r
        omega
      | error e => dsimp only; omega
      | panic p => dsimp only; omega
      | outOfFuel => dsimp only; omega

theorem NewDiscoveryResponse_wellShaped (cap : Nat) :
    NewDiscoveryResponse.wellShaped cap := by
  simp [DiscoveryResponse.wellShaped, NewDiscoveryResponse]

/-- The `switch` keeps the shape of `MAC` and `IP` when the value of the field
ends inside the capacity. -/
theorem applyField_wellShaped (arr : List Byte) (t : FieldType) (data : View) (cap : Nat)
    (resp r : DiscoveryResponse) (h : applyField arr t data resp = .ok r)
    (hin : data.hi ≤ cap) (hw : resp.wellShaped cap) : r.wellShaped cap := by
  obtain ⟨hm, hf, hs⟩ := hw
  rcases applyField_ok _ _ _ _ _ h with
    ⟨_, hl, rfl⟩ | ⟨_, hl, a, b, c, e, _, rfl⟩ | ⟨_, hl, rfl⟩ | ⟨_, rfl⟩ | ⟨_, rfl⟩ |
    ⟨_, rfl⟩ | ⟨_, rfl⟩ | ⟨_, rfl⟩ | ⟨_, rfl⟩
  · refine ⟨?_, hf, hs⟩
    intro v hv
    simp only [Option.some.injEq] at hv
    subst hv
    simp only [View.len] at hl
    omega
  · refine ⟨?_, ?_, ?_⟩
    · intro v hv
      simp only [Option.some.injEq] at hv
      subst hv
      simp only [View.len] at hl
      dsimp only
      omega
    · intro bs hbs
      simp only [Option.some.injEq, IPValue.fresh.injEq] at hbs
      subst hbs
      simp [IPv4, v4InV6Prefix]
    · intro v hv
      simp at hv
  · refine ⟨?_, ?_, ?_⟩
    · intro v hv
      simp only [Option.some.injEq] at hv
      subst hv
      simp only [View.len] at hl
      dsimp only
      omega
    · intro bs hbs
      simp at hbs
    · intro v hv
      simp only [Option.some.injEq, IPValue.shared.injEq] at hv
      subst hv
      simp only [View.len] at hl
      dsimp only
      omega
  all_goals exact ⟨hm, hf, hs⟩

/-- The loop keeps the shape of `MAC` and `IP`. -/
theorem fieldLoop_wellShaped (d : ByteSlice) :
    ∀ (fuel offset : Nat) (resp r : DiscoveryResponse),
      fieldLoop d fuel offset resp = .ok r → resp.wellShaped d.cap → r.wellShaped d.cap := by
  intro fuel
  induction fuel with
  | zero => intro offset resp r h _; rw [fieldLoop] at h; cases h
  | succ n ih =>
    intro offset resp r h hw
    rw [fieldLoop_eq_step] at h
    by_cases h1 : offset ≥ d.len
    · rw [if_pos h1] at h
      simp only [Outcome.ok.injEq] at h
      rw [← h]; exact hw
    · rw [if_neg h1, Outcome.bind_eq_ok] at h
      obtain ⟨⟨o, r1⟩, hs, hl⟩ := h
      obtain ⟨t, m, _, ho, hle, ha⟩ := fieldStep_ok d offset o resp r1 hs
      exact ih o r1 r hl
        (applyField_wellShaped d.backing t.val _ d.cap resp r1 ha (by dsimp only; omega) hw)

/-- A response of `FromBytes` is the result of its field loop. -/
theorem FromBytes_ok_fieldLoop (d : ByteSlice) (r : DiscoveryResponse)
    (h : FromBytes d = .ok (some r)) :
    fieldLoop d d.len (DiscoveryHeader.length + 1) NewDiscoveryResponse = .ok r := by
  unfold FromBytes at h
  split_ifs at h with h1 h2
  split at h
  · cases h
  · dsimp only at h
    split_ifs at h with h3 h4
    · cases h
    · cases hf : fieldLoop d d.len (DiscoveryHeader.length + 1) NewDiscoveryResponse with
      | ok r1 =>
        rw [hf] at h
        simp only [Outcome.ok.injEq, Option.some.injEq] at h
        rw [h]
      | error e => rw [hf] at h; cases h
      | panic p => rw [hf] at h; cases h
      | outOfFuel => rw [hf] at h; cases h

theorem View.length_bytes (arr : List Byte) (v : View) (n : Nat)
    (h : v.hi = v.lo + n) (hin : v.hi ≤ arr.length) : (View.bytes arr v).length = n := by
  simp only [View.bytes, List.length_take, List.length_drop]
  omega

/-- The receive loop ends on the state that the datagrams have led to: a
failed read returns the error, a timeout returns the collected responses as
the receive buffer shows them. -/
theorem receiveLoop_of_receiveAll (datagrams : List (List Byte)) :
    ∀ (buf0 : List Byte) (rs0 : List DiscoveryResponse) (buf : List Byte)
      (rs : List DiscoveryResponse),
      receiveAll datagrams buf0 rs0 = .ok (buf, rs) →
      receiveLoop datagrams .failure buf0 rs0 = .readError ∧
      receiveLoop datagrams .timeout buf0 rs0
        = .returned (rs.map (DiscoveryResponse.read buf)) := by
  induction datagrams with
  | nil =>
    intro buf0 rs0 buf rs h
    simp only [receiveAll, Outcome.ok.injEq, Prod.mk.injEq] at h
    obtain ⟨hb, hr⟩ := h
    subst hb; subst hr
    exact ⟨rfl, rfl⟩
  | cons dg rest ih =>
    intro buf0 rs0 buf rs h
    rw [receiveAll, receiveStep] at h
    rw [receiveLoop, receiveLoop]
    dsimp only at h ⊢
    cases hf : FromBytes ⟨List.take (ReadFrom buf0 dg).1 (ReadFrom buf0 dg).2,
        List.drop (ReadFrom buf0 dg).1 (ReadFrom buf0 dg).2⟩ with
    | ok x =>
      rw [hf] at h
      cases x with
      | none => exact ih _ _ buf rs h
      | some r => exact ih _ _ buf rs h
    | error e => rw [hf] at h; exact ih _ _ buf rs h
    | panic p => rw [hf] at h; cases h
    | outOfFuel => rw [hf] at h; cases h

/-! ## The claims -/

/-- C1, as stated, fails: the 13-byte input `01 00 00 0A 01 00 06 AA BB CC DD EE FF`
declares 10 payload bytes but carries 9, and `FromBytes` returns the
invalid-payload-length error. -/
theorem FromBytes_macFrame_declared0A :
    FromBytes ⟨[0x01, 0x00, 0x00, 0x0A, 0x01, 0x00, 0x06, 0xAA, 0xBB, 0xCC, 0xDD, 0xEE, 0xFF], []⟩
      = .error (.invalidPayloadLength 10 9) := by
  decide

/-- C1, amended: with the length byte `09` (= 13 - 4) the 13-byte input
`01 00 00 09 01 00 06 AA BB CC DD EE FF` decodes, whatever the capacity of the
buffer, with no error to a response whose MAC is `AA:BB:CC:DD:EE:FF`, whose IP
is nil, whose five strings are empty and whose Unknown map is empty. -/
theorem FromBytes_macFrame (spare : List Byte) :
    ∃ r, FromBytes
          ⟨[0x01, 0x00, 0x00, 0x09, 0x01, 0x00, 0x06, 0xAA, 0xBB, 0xCC, 0xDD, 0xEE, 0xFF], spare⟩
          = .ok (some r) ∧
      r.read ([0x01, 0x00, 0x00, 0x09, 0x01, 0x00, 0x06, 0xAA, 0xBB, 0xCC, 0xDD, 0xEE, 0xFF] ++ spare)
        = { MAC := some [0xAA, 0xBB, 0xCC, 0xDD, 0xEE, 0xFF], IP := none, Firmware := [],
            RadioName := [], ModelShort := [], ESSID := [], ModelFull := [], Unknown := [] } := by
  refine ⟨{ NewDiscoveryResponse with MAC := some ⟨7, 13⟩ }, ?_, by rfl⟩
  exact (FromBytes_fields 0x09 [⟨0x01, [0xAA, 0xBB, 0xCC, 0xDD, 0xEE, 0xFF]⟩] spare
    (by decide) (by decide)).trans (by rfl)

/-- C2, as stated, fails: the 17-byte input
`01 00 00 0E 02 00 0A AA BB CC DD EE FF 0A 00 00 01` declares 14 payload bytes
but carries 13, and `FromBytes` returns the invalid-payload-length error. -/
theorem FromBytes_macIPFrame_declared0E :
    FromBytes ⟨[0x01, 0x00, 0x00, 0x0E, 0x02, 0x00, 0x0A, 0xAA, 0xBB, 0xCC, 0xDD, 0xEE, 0xFF,
        0x0A, 0x00, 0x00, 0x01], []⟩
      = .error (.invalidPayloadLength 14 13) := by
  decide

/-- C2, amended: with the length byte `0D` (= 17 - 4) the 17-byte input
`01 00 00 0D 02 00 0A AA BB CC DD EE FF 0A 00 00 01` decodes, whatever the
capacity of the buffer, with no error to a response whose MAC is
`AA:BB:CC:DD:EE:FF` and whose IP is `net.IPv4(10, 0, 0, 1)`, the IPv4 address
10.0.0.1 in its 16-byte form. -/
theorem FromBytes_macIPFrame (spare : List Byte) :
    ∃ r, FromBytes
          ⟨[0x01, 0x00, 0x00, 0x0D, 0x02, 0x00, 0x0A, 0xAA, 0xBB, 0xCC, 0xDD, 0xEE, 0xFF,
            0x0A, 0x00, 0x00, 0x01], spare⟩
          = .ok (some r) ∧
      (r.read ([0x01, 0x00, 0x00, 0x0D, 0x02, 0x00, 0x0A, 0xAA, 0xBB, 0xCC, 0xDD, 0xEE, 0xFF,
            0x0A, 0x00, 0x00, 0x01] ++ spare)).MAC = some [0xAA, 0xBB, 0xCC, 0xDD, 0xEE, 0xFF] ∧
      (r.read ([0x01, 0x00, 0x00, 0x0D, 0x02, 0x00, 0x0A, 0xAA, 0xBB, 0xCC, 0xDD, 0xEE, 0xFF,
            0x0A, 0x00, 0x00, 0x01] ++ spare)).IP = some (IPv4 10 0 0 1) ∧
      IPv4 10 0 0 1 = [0, 0, 0, 0, 0, 0, 0, 0, 0, 0, 0xff, 0xff, 10, 0, 0, 1] := by
  refine ⟨{ NewDiscoveryResponse with
      MAC := some ⟨7, 13⟩, IP := some (.fresh (IPv4 10 0 0 1)) }, ?_, by rfl, by rfl, by rfl⟩
  exact (FromBytes_fields 0x0D
    [⟨0x02, [0xAA, 0xBB, 0xCC, 0xDD, 0xEE, 0xFF, 0x0A, 0x00, 0x00, 0x01]⟩] spare
    (by decide) (by decide)).trans (by rfl)

/-- C3: the code has no bounds check on a field.  With capacity equal to
length, `01 00 00 03 01 00 06` and `01 00 00 03 01 FF FF` make `FromBytes` panic
on the slice expression `d[offset : offset+fieldLen]`, and `01 00 00 01 05` makes
it panic on `d[offset : offset+2]`; with spare capacity behind the 7 bytes of
`01 00 00 03 01 00 06` it returns a response whose MAC is read from the six
bytes behind the end of the buffer.  No truncated-field error exists. -/
theorem FromBytes_truncatedField :
    FromBytes ⟨[0x01, 0x00, 0x00, 0x03, 0x01, 0x00, 0x06], []⟩
        = .panic (.sliceBoundsOutOfRange 13 7) ∧
    FromBytes ⟨[0x01, 0x00, 0x00, 0x03, 0x01, 0xFF, 0xFF], []⟩
        = .panic (.sliceBoundsOutOfRange 65542 7) ∧
    FromBytes ⟨[0x01, 0x00, 0x00, 0x01, 0x05], []⟩
        = .panic (.sliceBoundsOutOfRange 7 5) ∧
    (FromBytes ⟨[0x01, 0x00, 0x00, 0x03, 0x01, 0x00, 0x06], [0x11, 0x22, 0x33, 0x44, 0x55, 0x66]⟩).bind
        (fun r => .ok (r.map (DiscoveryResponse.read
          [0x01, 0x00, 0x00, 0x03, 0x01, 0x00, 0x06, 0x11, 0x22, 0x33, 0x44, 0x55, 0x66])))
      = .ok (some
          { MAC := some [0x11, 0x22, 0x33, 0x44, 0x55, 0x66], IP := none, Firmware := [],
            RadioName := [], ModelShort := [], ESSID := [], ModelFull := [], Unknown := [] }) := by
  decide

/-- C4, as stated, fails: `01 00 00 00 FF` has 5 bytes, starts with the magic
header and has length byte 0, which differs from 5 - 4 = 1; `FromBytes` returns
`(nil, nil)`, not an error, because the test `payloadLen == 0` comes first. -/
theorem FromBytes_zeroLength_mismatch :
    FromBytes ⟨[0x01, 0x00, 0x00, 0x00, 0xFF], []⟩ = .ok none := by
  decide

/-- C4, amended: for every buffer of at least 4 bytes that starts with
`01 00 00` and whose length byte `L` is not zero and differs from
(total length - 4), `FromBytes` returns no response and the
invalid-payload-length error. -/
theorem FromBytes_payloadLength_mismatch (d : ByteSlice) (L : Byte) (h4 : 4 ≤ d.len)
    (hh : d.data.take 3 = [0x01, 0x00, 0x00]) (hL : d.data[3]? = some L)
    (h0 : L.val ≠ 0) (hne : L.val ≠ d.len - 4) :
    FromBytes d = .error (.invalidPayloadLength L.val (d.len - 4)) :=
  FromBytes_lengthMismatch d L h4 hh hL h0 hne

/-- Witness of C4 (amended): `01 00 00 02 05` declares 2 payload bytes and carries 1. -/
theorem FromBytes_payloadLength_mismatch_witness :
    FromBytes ⟨[0x01, 0x00, 0x00, 0x02, 0x05], []⟩ = .error (.invalidPayloadLength 2 1) :=
  FromBytes_payloadLength_mismatch ⟨[0x01, 0x00, 0x00, 0x02, 0x05], []⟩ 0x02
    (by decide) (by decide) (by decide) (by decide) (by decide)

/-- C5: one datagram with an overlong field length aborts the whole call.
After the valid frame `01 00 00 09 01 00 06 AA BB CC DD EE FF`, whose response
C5 expects in the result, the datagram `01 00 00 03 01 FF FF` makes `FromBytes`
panic inside `Discover` (slice bounds 65542 against the capacity 1024 of the
receive buffer), so `Discover` returns nothing. -/
theorem Discover_truncatedDatagram_panics :
    Discover ⟨true, true, true, true,
        [[0x01, 0x00, 0x00, 0x09, 0x01, 0x00, 0x06, 0xAA, 0xBB, 0xCC, 0xDD, 0xEE, 0xFF],
         [0x01, 0x00, 0x00, 0x03, 0x01, 0xFF, 0xFF]], .timeout⟩
      = .panic (.sliceBoundsOutOfRange 65542 1024) ∧
    expectedResponses
        [[0x01, 0x00, 0x00, 0x09, 0x01, 0x00, 0x06, 0xAA, 0xBB, 0xCC, 0xDD, 0xEE, 0xFF],
         [0x01, 0x00, 0x00, 0x03, 0x01, 0xFF, 0xFF]]
      = [{ MAC := some [0xAA, 0xBB, 0xCC, 0xDD, 0xEE, 0xFF], IP := none, Firmware := [],
           RadioName := [], ModelShort := [], ESSID := [], ModelFull := [], Unknown := [] }] := by
  set_option maxRecDepth 1000000 in decide

/-- C6: the MAC of a response is a sub-slice of the one receive buffer.  After
the two valid frames `01 00 00 09 01 00 06 AA BB CC DD EE FF` and
`01 00 00 09 01 00 06 11 22 33 44 55 66`, the first response of the list that
`Discover` returns shows the MAC `11:22:33:44:55:66` of the second datagram,
while the first datagram decoded on its own has the MAC `AA:BB:CC:DD:EE:FF`. -/
theorem Discover_response_overwritten :
    Discover ⟨true, true, true, true,
        [[0x01, 0x00, 0x00, 0x09, 0x01, 0x00, 0x06, 0xAA, 0xBB, 0xCC, 0xDD, 0xEE, 0xFF],
         [0x01, 0x00, 0x00, 0x09, 0x01, 0x00, 0x06, 0x11, 0x22, 0x33, 0x44, 0x55, 0x66]],
        .timeout⟩
      = .returned
        [{ MAC := some [0x11, 0x22, 0x33, 0x44, 0x55, 0x66], IP := none, Firmware := [],
           RadioName := [], ModelShort := [], ESSID := [], ModelFull := [], Unknown := [] },
         { MAC := some [0x11, 0x22, 0x33, 0x44, 0x55, 0x66], IP := none, Firmware := [],
           RadioName := [], ModelShort := [], ESSID := [], ModelFull := [], Unknown := [] }] ∧
    decodeDatagram [0x01, 0x00, 0x00, 0x09, 0x01, 0x00, 0x06, 0xAA, 0xBB, 0xCC, 0xDD, 0xEE, 0xFF]
      = some
        { MAC := some [0xAA, 0xBB, 0xCC, 0xDD, 0xEE, 0xFF], IP := none, Firmware := [],
          RadioName := [], ModelShort := [], ESSID := [], ModelFull := [], Unknown := [] } := by
  set_option maxRecDepth 1000000 in decide

/-- C7: for every buffer shorter than 4 bytes, the empty one included,
`FromBytes` returns no response and the short-buffer error. -/
theorem FromBytes_shortBuffer (d : ByteSlice) (h : d.len < 4) :
    FromBytes d = .error (.shortBuffer d.len) :=
  FromBytes_short d h

/-- Witness of C7: the empty buffer. -/
theorem FromBytes_shortBuffer_witness :
    (ByteSlice.mk [] []).len < 4 ∧ FromBytes ⟨[], []⟩ = .error (.shortBuffer 0) :=
  ⟨by decide, FromBytes_shortBuffer ⟨[], []⟩ (by decide)⟩

/-- C8: for every buffer of at least 4 bytes whose first 3 bytes differ from
`01 00 00`, `FromBytes` returns no response and the not-a-discovery-response
error, whatever the length byte and the remaining bytes are. -/
theorem FromBytes_notAFrame (d : ByteSlice) (h4 : 4 ≤ d.len)
    (hh : d.data.take 3 ≠ [0x01, 0x00, 0x00]) :
    FromBytes d = .error .notDiscoveryResponse :=
  FromBytes_badHeader d h4 hh

/-- Witness of C8: `02 00 00 00`, the probe with its first byte changed. -/
theorem FromBytes_notAFrame_witness :
    4 ≤ (ByteSlice.mk [0x02, 0x00, 0x00, 0x00] []).len ∧
    FromBytes ⟨[0x02, 0x00, 0x00, 0x00], []⟩ = .error .notDiscoveryResponse :=
  ⟨by decide, FromBytes_notAFrame ⟨[0x02, 0x00, 0x00, 0x00], []⟩ (by decide) (by decide)⟩

/-- C9: for every buffer of at least 4 bytes that starts with `01 00 00` and
has length byte 0, `FromBytes` returns `(nil, nil)`: neither a response nor an
error. -/
theorem FromBytes_zeroLength (d : ByteSlice) (h4 : 4 ≤ d.len)
    (hh : d.data.take 3 = [0x01, 0x00, 0x00]) (h0 : d.data[3]? = some 0) :
    FromBytes d = .ok none :=
  FromBytes_probe d h4 hh h0

/-- Witness of C9: the 4-byte probe `01 00 00 00` that `Discover` sends
decodes to `(nil, nil)`. -/
theorem FromBytes_zeroLength_witness :
    probe = [0x01, 0x00, 0x00, 0x00] ∧ FromBytes ⟨probe, []⟩ = .ok none :=
  ⟨rfl, FromBytes_zeroLength ⟨probe, []⟩ (by decide) (by decide) (by decide)⟩

/-- C10, as stated, fails: in `01 00 00 0B 02 00 08 AA BB CC DD EE FF 0A 00` the
field of type 0x02 has 8 value bytes, so its address part has 2 bytes, neither
4 nor 16; `FromBytes` returns the short-MAC_and_IP error of line 117, not the
invalid-address-length error of line 129. -/
theorem FromBytes_shortMACAndIP :
    FromBytes ⟨[0x01, 0x00, 0x00, 0x0B, 0x02, 0x00, 0x08, 0xAA, 0xBB, 0xCC, 0xDD, 0xEE, 0xFF,
        0x0A, 0x00], []⟩
      = .error (.shortMACAndIP 10 8) := by
  decide

/-- C10, amended: in a frame that passes the header and length checks and
whose payload is exactly a sequence of fields, if a field of type 0x02 has at
least 10 value bytes and an address part (the bytes after the first 6) of
neither 4 nor 16 bytes, and every earlier field meets the length conditions of
the `switch`, then `FromBytes` returns no response and the
invalid-address-length error. -/
theorem FromBytes_invalidAddressLength (L : Byte) (pre post : List Field) (f : Field)
    (spare : List Byte)
    (hL : L.val = (encodeFields (pre ++ f :: post)).length)
    (hpre : ∀ g ∈ pre, g.wellFormed)
    (ht : f.type_.val = FieldTypeMACAndIP)
    (h10 : 10 ≤ f.value.length)
    (h4 : f.value.length - 6 ≠ 4) (h16 : f.value.length - 6 ≠ 16) :
    FromBytes ⟨DiscoveryHeader ++ L :: encodeFields (pre ++ f :: post), spare⟩
      = .error (.invalidIPv6Length 16 (f.value.length - 6)) := by
  rw [FromBytes_fields L (pre ++ f :: post) spare hL (by simp), applyFields_append]
  have hin : 4 + (encodeFields pre).length
      ≤ (DiscoveryHeader ++ L :: encodeFields (pre ++ f :: post) ++ spare).length := by
    simp [encodeFields_append, DiscoveryHeader]; omega
  obtain ⟨r1, hr1⟩ := applyFields_wellFormed
    (DiscoveryHeader ++ L :: encodeFields (pre ++ f :: post) ++ spare) pre 4
    NewDiscoveryResponse hpre hin
  rw [hr1, Outcome.bind_ok, applyFields, ht,
    applyField_badAddress _ _ _ _ h10 h4 h16]
  rfl

/-- Witness of C10 (amended): `01 00 00 18 01 00 06 AA BB CC DD EE FF 02 00 0C
AA BB CC DD EE FF 0A 00 00 01 00 00`, a MAC field followed by a field of type
0x02 with 12 value bytes. -/
theorem FromBytes_invalidAddressLength_witness :
    FromBytes ⟨[0x01, 0x00, 0x00, 0x18, 0x01, 0x00, 0x06, 0xAA, 0xBB, 0xCC, 0xDD, 0xEE, 0xFF,
        0x02, 0x00, 0x0C, 0xAA, 0xBB, 0xCC, 0xDD, 0xEE, 0xFF, 0x0A, 0x00, 0x00, 0x01, 0x00, 0x00],
        []⟩
      = .error (.invalidIPv6Length 16 6) :=
  FromBytes_invalidAddressLength 0x18 [⟨0x01, [0xAA, 0xBB, 0xCC, 0xDD, 0xEE, 0xFF]⟩] []
    ⟨0x02, [0xAA, 0xBB, 0xCC, 0xDD, 0xEE, 0xFF, 0x0A, 0x00, 0x00, 0x01, 0x00, 0x00]⟩ []
    (by decide) (by decide) (by decide) (by decide) (by decide) (by decide)

/-- C11: in a frame that passes the header and length checks and whose payload
is exactly a sequence of fields, if a field of type 0x01 has a value length
different from 6, and every earlier field meets the length conditions of the
`switch`, then `FromBytes` returns no response and the short-MAC-field error. -/
theorem FromBytes_macField_wrongLength (L : Byte) (pre post : List Field) (f : Field)
    (spare : List Byte)
    (hL : L.val = (encodeFields (pre ++ f :: post)).length)
    (hpre : ∀ g ∈ pre, g.wellFormed)
    (ht : f.type_.val = FieldTypeMAC)
    (h6 : f.value.length ≠ 6) :
    FromBytes ⟨DiscoveryHeader ++ L :: encodeFields (pre ++ f :: post), spare⟩
      = .error (.shortMAC 6 f.value.length) := by
  rw [FromBytes_fields L (pre ++ f :: post) spare hL (by simp), applyFields_append]
  have hin : 4 + (encodeFields pre).length
      ≤ (DiscoveryHeader ++ L :: encodeFields (pre ++ f :: post) ++ spare).length := by
    rw [length_frame, encodeFields_append, List.length_append]; omega
  obtain ⟨r1, hr1⟩ := applyFields_wellFormed
    (DiscoveryHeader ++ L :: encodeFields (pre ++ f :: post) ++ spare) pre 4
    NewDiscoveryResponse hpre hin
  rw [hr1, Outcome.bind_ok, applyFields, ht, applyField_badMAC _ _ _ _ h6]
  rfl

/-- Witness of C11: `01 00 00 13 03 00 02 31 2E 01 00 05 AA BB CC DD EE 0C 00 03 55 41 50`,
a firmware field, a field of type 0x01 with 5 value bytes, a model field. -/
theorem FromBytes_macField_wrongLength_witness :
    FromBytes ⟨[0x01, 0x00, 0x00, 0x13, 0x03, 0x00, 0x02, 0x31, 0x2E,
        0x01, 0x00, 0x05, 0xAA, 0xBB, 0xCC, 0xDD, 0xEE, 0x0C, 0x00, 0x03, 0x55, 0x41, 0x50], []⟩
      = .error (.shortMAC 6 5) :=
  FromBytes_macField_wrongLength 0x13 [⟨0x03, [0x31, 0x2E]⟩] [⟨0x0C, [0x55, 0x41, 0x50]⟩]
    ⟨0x01, [0xAA, 0xBB, 0xCC, 0xDD, 0xEE]⟩ []
    (by decide) (by decide) (by decide) (by decide)

/-- C19: for every frame that starts with `01 00 00`, has a non-zero length
byte equal to (total length - 4) and whose payload is exactly a sequence of
fields (1 type byte, 2-byte big-endian length `N`, `N` value bytes),
`FromBytes` returns a response if and only if every field of type 0x01 has
`N = 6` and every field of type 0x02 has `N = 10` or `N = 22`; it returns an
error and no response if and only if some field breaks these conditions. -/
theorem FromBytes_response_iff (L : Byte) (fs : List Field) (spare : List Byte)
    (hL : L.val = (encodeFields fs).length) (hne : fs ≠ []) :
    ((∃ r, FromBytes ⟨DiscoveryHeader ++ L :: encodeFields fs, spare⟩ = .ok (some r)) ↔
      ∀ f ∈ fs, (f.type_.val = 0x01 → f.value.length = 6) ∧
        (f.type_.val = 0x02 → f.value.length = 10 ∨ f.value.length = 22)) ∧
    ((∃ e, FromBytes ⟨DiscoveryHeader ++ L :: encodeFields fs, spare⟩ = .error e) ↔
      ¬ ∀ f ∈ fs, (f.type_.val = 0x01 → f.value.length = 6) ∧
        (f.type_.val = 0x02 → f.value.length = 10 ∨ f.value.length = 22)) := by
  have hC : (∀ f ∈ fs, f.wellFormed) ↔
      ∀ f ∈ fs, (f.type_.val = 0x01 → f.value.length = 6) ∧
        (f.type_.val = 0x02 → f.value.length = 10 ∨ f.value.length = 22) := Iff.rfl
  rw [← hC]
  rcases FromBytes_fields_cases L fs spare hL hne with ⟨hwf, r, hr⟩ | ⟨hwf, e, he⟩
  · refine ⟨⟨fun _ => hwf, fun _ => ⟨r, hr⟩⟩, ⟨fun ⟨e, he⟩ => ?_, fun h => absurd hwf h⟩⟩
    rw [hr] at he; cases he
  · refine ⟨⟨fun ⟨r, hr⟩ => ?_, fun h => absurd h hwf⟩, ⟨fun _ => hwf, fun _ => ⟨e, he⟩⟩⟩
    rw [he] at hr; cases hr

/-- Witness of C19: `01 00 00 0E 01 00 06 AA BB CC DD EE FF 03 00 02 31 2E`, a MAC
field and a firmware field, decodes to a response. -/
theorem FromBytes_response_iff_witness :
    ∃ r, FromBytes ⟨[0x01, 0x00, 0x00, 0x0E, 0x01, 0x00, 0x06, 0xAA, 0xBB, 0xCC, 0xDD, 0xEE, 0xFF,
        0x03, 0x00, 0x02, 0x31, 0x2E], []⟩ = .ok (some r) :=
  (FromBytes_response_iff 0x0E
    [⟨0x01, [0xAA, 0xBB, 0xCC, 0xDD, 0xEE, 0xFF]⟩, ⟨0x03, [0x31, 0x2E]⟩] []
    (by decide) (by decide)).1.2 (by decide)

/-- C12, as stated, fails: the 16-byte frame
`01 00 00 0C 01 00 06 AA BB CC DD EE FF 01 00 06` ends with a field of type 0x01
that declares 6 value bytes and carries none.  With 6 spare bytes behind the
buffer `FromBytes` decodes it successfully, and the MAC of the response is
whatever the spare bytes hold (`11 22 33 44 55 66` in one buffer,
`21 22 23 24 25 26` in another), not bytes of a field of the frame. -/
theorem FromBytes_MAC_fromSpare :
    FromBytes ⟨[0x01, 0x00, 0x00, 0x0C, 0x01, 0x00, 0x06, 0xAA, 0xBB, 0xCC, 0xDD, 0xEE, 0xFF,
        0x01, 0x00, 0x06], [0x11, 0x22, 0x33, 0x44, 0x55, 0x66]⟩
      = .ok (some { NewDiscoveryResponse with MAC := some ⟨16, 22⟩ }) ∧
    (DiscoveryResponse.read
        ([0x01, 0x00, 0x00, 0x0C, 0x01, 0x00, 0x06, 0xAA, 0xBB, 0xCC, 0xDD, 0xEE, 0xFF,
          0x01, 0x00, 0x06] ++ [0x11, 0x22, 0x33, 0x44, 0x55, 0x66])
        { NewDiscoveryResponse with MAC := some ⟨16, 22⟩ }).MAC
      = some [0x11, 0x22, 0x33, 0x44, 0x55, 0x66] ∧
    FromBytes ⟨[0x01, 0x00, 0x00, 0x0C, 0x01, 0x00, 0x06, 0xAA, 0xBB, 0xCC, 0xDD, 0xEE, 0xFF,
        0x01, 0x00, 0x06], [0x21, 0x22, 0x23, 0x24, 0x25, 0x26]⟩
      = .ok (some { NewDiscoveryResponse with MAC := some ⟨16, 22⟩ }) ∧
    (DiscoveryResponse.read
        ([0x01, 0x00, 0x00, 0x0C, 0x01, 0x00, 0x06, 0xAA, 0xBB, 0xCC, 0xDD, 0xEE, 0xFF,
          0x01, 0x00, 0x06] ++ [0x21, 0x22, 0x23, 0x24, 0x25, 0x26])
        { NewDiscoveryResponse with MAC := some ⟨16, 22⟩ }).MAC
      = some [0x21, 0x22, 0x23, 0x24, 0x25, 0x26] := by
  decide

/-- C12, amended: in a frame that `FromBytes` decodes successfully and whose
payload is exactly a sequence of fields (every field lies within the payload),
the MAC of the response is made of the 6 MAC bytes of the last field of type
0x01 or 0x02 in byte order: the first 6 bytes of its value, which for type
0x01 are the whole value. -/
theorem FromBytes_MAC_lastField (L : Byte) (pre post : List Field) (g : Field)
    (spare : List Byte) (r : DiscoveryResponse)
    (hL : L.val = (encodeFields (pre ++ g :: post)).length)
    (hok : FromBytes ⟨DiscoveryHeader ++ L :: encodeFields (pre ++ g :: post), spare⟩
      = .ok (some r))
    (hg : g.type_.val = 0x01 ∨ g.type_.val = 0x02)
    (hpost : ∀ x ∈ post, x.type_.val ≠ 0x01 ∧ x.type_.val ≠ 0x02) :
    (r.read (DiscoveryHeader ++ L :: encodeFields (pre ++ g :: post) ++ spare)).MAC
        = some (g.value.take 6) ∧
    (g.type_.val = 0x01 → g.value.take 6 = g.value) := by
  constructor
  · have h := FromBytes_last L (pre ++ g :: post) spare r
      (fun r => r.MAC.map
        (View.bytes (DiscoveryHeader ++ L :: encodeFields (pre ++ g :: post) ++ spare)))
      bearsMAC (fun f => some (f.value.take 6))
      (fun f lo resp r hb h => applyField_MAC _ f lo resp r hb h) hL hok
    have hl : lastField bearsMAC (pre ++ g :: post) = some g :=
      lastField_eq_some bearsMAC pre post g
        (by simpa [bearsMAC, FieldTypeMAC, FieldTypeMACAndIP] using hg)
        (fun x hx => by
          have := hpost x hx
          simp [bearsMAC, FieldTypeMAC, FieldTypeMACAndIP, this.1, this.2])
    rw [hl] at h
    simpa [DiscoveryResponse.read] using h
  · intro ht
    have hwf := FromBytes_fields_wellFormed L (pre ++ g :: post) spare r hL hok g (by simp)
    have h6 : g.value.length = 6 := hwf.1 ht
    exact List.take_of_length_le (Nat.le_of_eq h6)

/-- Witness of C12 (amended): `01 00 00 16 02 00 0A 11 22 33 44 55 66 0A 00 00 01 01 00 06
AA BB CC DD EE FF`, a MAC+IP field followed by a MAC field: the MAC is that of
the later field. -/
theorem FromBytes_MAC_lastField_witness :
    FromBytes ⟨[0x01, 0x00, 0x00, 0x16, 0x02, 0x00, 0x0A, 0x11, 0x22, 0x33, 0x44, 0x55, 0x66,
        0x0A, 0x00, 0x00, 0x01, 0x01, 0x00, 0x06, 0xAA, 0xBB, 0xCC, 0xDD, 0xEE, 0xFF], []⟩
      = .ok (some { NewDiscoveryResponse with
          MAC := some ⟨20, 26⟩, IP := some (.fresh (IPv4 10 0 0 1)) }) ∧
    (DiscoveryResponse.read
        [0x01, 0x00, 0x00, 0x16, 0x02, 0x00, 0x0A, 0x11, 0x22, 0x33, 0x44, 0x55, 0x66,
          0x0A, 0x00, 0x00, 0x01, 0x01, 0x00, 0x06, 0xAA, 0xBB, 0xCC, 0xDD, 0xEE, 0xFF]
        { NewDiscoveryResponse with
          MAC := some ⟨20, 26⟩, IP := some (.fresh (IPv4 10 0 0 1)) }).MAC
      = some [0xAA, 0xBB, 0xCC, 0xDD, 0xEE, 0xFF] :=
  ⟨by decide,
   (FromBytes_MAC_lastField 0x16
      [⟨0x02, [0x11, 0x22, 0x33, 0x44, 0x55, 0x66, 0x0A, 0x00, 0x00, 0x01]⟩] []
      ⟨0x01, [0xAA, 0xBB, 0xCC, 0xDD, 0xEE, 0xFF]⟩ []
      { NewDiscoveryResponse with MAC := some ⟨20, 26⟩, IP := some (.fresh (IPv4 10 0 0 1)) }
      (by decide) (by decide) (by decide) (by decide)).1⟩

/-- C14: in a frame that `FromBytes` decodes successfully and whose last field
of type 0x01 or 0x02 is a field of type 0x02, the MAC of the response is made
of the first 6 value bytes of that field, its value has 10 or 22 bytes, and the
IP is `net.IPv4` of value bytes 6..9 when the value has 10 bytes and the 16
value bytes 6..21 when it has 22. -/
theorem FromBytes_MACAndIP_lastField (L : Byte) (pre post : List Field) (g : Field)
    (spare : List Byte) (r : DiscoveryResponse)
    (hL : L.val = (encodeFields (pre ++ g :: post)).length)
    (hok : FromBytes ⟨DiscoveryHeader ++ L :: encodeFields (pre ++ g :: post), spare⟩
      = .ok (some r))
    (hg : g.type_.val = 0x02)
    (hpost : ∀ x ∈ post, x.type_.val ≠ 0x01 ∧ x.type_.val ≠ 0x02) :
    (r.read (DiscoveryHeader ++ L :: encodeFields (pre ++ g :: post) ++ spare)).MAC
        = some (g.value.take 6) ∧
    (g.value.length = 10 ∨ g.value.length = 22) ∧
    (g.value.length = 10 → ∃ a b c d, g.value.drop 6 = [a, b, c, d] ∧
      (r.read (DiscoveryHeader ++ L :: encodeFields (pre ++ g :: post) ++ spare)).IP
        = some (IPv4 a b c d)) ∧
    (g.value.length = 22 → (g.value.drop 6).length = 16 ∧
      (r.read (DiscoveryHeader ++ L :: encodeFields (pre ++ g :: post) ++ spare)).IP
        = some (g.value.drop 6)) := by
  have hmac := FromBytes_last L (pre ++ g :: post) spare r
    (fun r => r.MAC.map
      (View.bytes (DiscoveryHeader ++ L :: encodeFields (pre ++ g :: post) ++ spare)))
    bearsMAC (fun f => some (f.value.take 6))
    (fun f lo resp r hb h => applyField_MAC _ f lo resp r hb h) hL hok
  have hl : lastField bearsMAC (pre ++ g :: post) = some g :=
    lastField_eq_some bearsMAC pre post g
      (by simp [bearsMAC, FieldTypeMAC, FieldTypeMACAndIP, hg])
      (fun x hx => by
        have := hpost x hx
        simp [bearsMAC, FieldTypeMAC, FieldTypeMACAndIP, this.1, this.2])
  rw [hl] at hmac
  have hip := FromBytes_last L (pre ++ g :: post) spare r
    (fun r => (r.read (DiscoveryHeader ++ L :: encodeFields (pre ++ g :: post) ++ spare)).IP)
    (hasType FieldTypeMACAndIP)
    (fun f => some (if f.value.length = 10 then v4InV6Prefix ++ f.value.drop 6
      else f.value.drop 6))
    (fun f lo resp r hb h => applyField_IP _ f lo resp r hb h) hL hok
  have hl2 : lastField (hasType FieldTypeMACAndIP) (pre ++ g :: post) = some g :=
    lastField_eq_some _ pre post g
      (by simp [hasType, FieldTypeMACAndIP, hg])
      (fun x hx => by
        have := hpost x hx
        simp [hasType, FieldTypeMACAndIP, this.2])
  rw [hl2] at hip
  simp only [Option.map_some', Option.getD_some] at hip
  have hwf := FromBytes_fields_wellFormed L (pre ++ g :: post) spare r hL hok g (by simp)
  have hlen : g.value.length = 10 ∨ g.value.length = 22 := hwf.2 hg
  refine ⟨by simpa [DiscoveryResponse.read] using hmac, hlen, ?_, ?_⟩
  · intro h10
    have h4 : (g.value.drop 6).length = 4 := by simp [h10]
    match hd : g.value.drop 6, h4 with
    | [a, b, c, d], _ =>
      refine ⟨a, b, c, d, rfl, ?_⟩
      rw [hip, if_pos h10, hd]
      rfl
  · intro h22
    have h10 : ¬ g.value.length = 10 := by omega
    refine ⟨by simp [h22], ?_⟩
    rw [hip, if_neg h10]

/-- Witness of C14: `01 00 00 0D 02 00 0A AA BB CC DD EE FF 0A 00 00 01` gives the
MAC `AA:BB:CC:DD:EE:FF` and the IP 10.0.0.1. -/
theorem FromBytes_MACAndIP_lastField_witness :
    FromBytes ⟨[0x01, 0x00, 0x00, 0x0D, 0x02, 0x00, 0x0A, 0xAA, 0xBB, 0xCC, 0xDD, 0xEE, 0xFF,
        0x0A, 0x00, 0x00, 0x01], []⟩
      = .ok (some { NewDiscoveryResponse with
          MAC := some ⟨7, 13⟩, IP := some (.fresh (IPv4 10 0 0 1)) }) ∧
    (DiscoveryResponse.read
        [0x01, 0x00, 0x00, 0x0D, 0x02, 0x00, 0x0A, 0xAA, 0xBB, 0xCC, 0xDD, 0xEE, 0xFF,
          0x0A, 0x00, 0x00, 0x01]
        { NewDiscoveryResponse with
          MAC := some ⟨7, 13⟩, IP := some (.fresh (IPv4 10 0 0 1)) }).MAC
      = some [0xAA, 0xBB, 0xCC, 0xDD, 0xEE, 0xFF] ∧
    (DiscoveryResponse.read
        [0x01, 0x00, 0x00, 0x0D, 0x02, 0x00, 0x0A, 0xAA, 0xBB, 0xCC, 0xDD, 0xEE, 0xFF,
          0x0A, 0x00, 0x00, 0x01]
        { NewDiscoveryResponse with
          MAC := some ⟨7, 13⟩, IP := some (.fresh (IPv4 10 0 0 1)) }).IP
      = some (IPv4 10 0 0 1) :=
  ⟨by decide,
   (FromBytes_MACAndIP_lastField 0x0D [] []
      ⟨0x02, [0xAA, 0xBB, 0xCC, 0xDD, 0xEE, 0xFF, 0x0A, 0x00, 0x00, 0x01]⟩ []
      { NewDiscoveryResponse with MAC := some ⟨7, 13⟩, IP := some (.fresh (IPv4 10 0 0 1)) }
      (by decide) (by decide) (by decide) (by decide)).1, by decide⟩

/-- C13, as stated, fails: the 7-byte frame `01 00 00 03 20 00 02` is one field
of the unknown type 0x20 that declares 2 value bytes and carries none.  With 2
spare bytes behind the buffer `FromBytes` decodes it successfully, and the
Unknown map shows under 0x20 whatever the spare bytes hold (`41 42` in one
buffer, `51 52` in another), not value bytes of a field of the frame. -/
theorem FromBytes_Unknown_fromSpare :
    FromBytes ⟨[0x01, 0x00, 0x00, 0x03, 0x20, 0x00, 0x02], [0x41, 0x42]⟩
      = .ok (some { NewDiscoveryResponse with Unknown := [(0x20, ⟨7, 9⟩)] }) ∧
    (mapGet [(0x20, ⟨7, 9⟩)] 0x20).map
        (View.bytes ([0x01, 0x00, 0x00, 0x03, 0x20, 0x00, 0x02] ++ [0x41, 0x42]))
      = some [0x41, 0x42] ∧
    FromBytes ⟨[0x01, 0x00, 0x00, 0x03, 0x20, 0x00, 0x02], [0x51, 0x52]⟩
      = .ok (some { NewDiscoveryResponse with Unknown := [(0x20, ⟨7, 9⟩)] }) ∧
    (mapGet [(0x20, ⟨7, 9⟩)] 0x20).map
        (View.bytes ([0x01, 0x00, 0x00, 0x03, 0x20, 0x00, 0x02] ++ [0x51, 0x52]))
      = some [0x51, 0x52] := by
  decide

/-- C13, amended: in a frame that `FromBytes` decodes successfully and whose
payload is exactly a sequence of fields (every field lies within the payload),
the Unknown map shows nothing under a type code that the `switch` names (0x01,
0x02, 0x03, 0x0b, 0x0c, 0x0d, 0x14), and under every other type code `k` it
shows the value bytes of the last field of type `k` in the frame, nothing when
the frame has no such field. -/
theorem FromBytes_Unknown_lastField (L : Byte) (fs : List Field) (spare : List Byte)
    (r : DiscoveryResponse) (k : FieldType)
    (hL : L.val = (encodeFields fs).length)
    (hok : FromBytes ⟨DiscoveryHeader ++ L :: encodeFields fs, spare⟩ = .ok (some r)) :
    (mapGet r.Unknown k).map (View.bytes (DiscoveryHeader ++ L :: encodeFields fs ++ spare))
      = if recognised k then none else (lastField (hasType k) fs).map Field.value := by
  have h := FromBytes_last L fs spare r
    (fun r => (mapGet r.Unknown k).map
      (View.bytes (DiscoveryHeader ++ L :: encodeFields fs ++ spare)))
    (fun f => hasType k f && !recognised k) (fun f => some f.value)
    (fun f lo resp r hb h => applyField_Unknown _ k f lo resp r hb h) hL hok
  dsimp only at h
  rw [h]
  cases hr : recognised k with
  | true =>
    have hn : lastField (fun _ => false) fs = none :=
      lastField_eq_none _ fs (fun _ _ => rfl)
    simp [hn, mapGet, NewDiscoveryResponse]
  | false =>
    have hp : (fun f => hasType k f && !false) = hasType k := by
      funext f; simp
    rw [hp]
    cases lastField (hasType k) fs <;> simp [mapGet, NewDiscoveryResponse]

/-- Witness of C13 (amended): `01 00 00 0D 20 00 01 01 21 00 02 02 03 20 00 01 04`, fields of
the unknown types 0x20, 0x21, 0x20: the key 0x20 shows the value `04` of the
later field of type 0x20. -/
theorem FromBytes_Unknown_lastField_witness :
    FromBytes ⟨[0x01, 0x00, 0x00, 0x0D, 0x20, 0x00, 0x01, 0x01, 0x21, 0x00, 0x02, 0x02, 0x03,
        0x20, 0x00, 0x01, 0x04], []⟩
      = .ok (some { NewDiscoveryResponse with
          Unknown := [(0x20, ⟨16, 17⟩), (0x21, ⟨11, 13⟩)] }) ∧
    (mapGet [(0x20, ⟨16, 17⟩), (0x21, ⟨11, 13⟩)] 0x20).map
        (View.bytes [0x01, 0x00, 0x00, 0x0D, 0x20, 0x00, 0x01, 0x01, 0x21, 0x00, 0x02, 0x02, 0x03,
          0x20, 0x00, 0x01, 0x04])
      = some [0x04] :=
  ⟨by decide,
   (FromBytes_Unknown_lastField 0x0D
      [⟨0x20, [0x01]⟩, ⟨0x21, [0x02, 0x03]⟩, ⟨0x20, [0x04]⟩] []
      { NewDiscoveryResponse with Unknown := [(0x20, ⟨16, 17⟩), (0x21, ⟨11, 13⟩)] } 0x20
      (by decide) (by decide)).trans (by decide)⟩

/-- C15, as stated, fails: the 7-byte frame `01 00 00 03 03 00 02` is one
firmware field that declares 2 value bytes and carries none.  With 2 spare
bytes behind the buffer `FromBytes` decodes it successfully, and Firmware is
whatever the spare bytes hold (`41 42` in one buffer, `51 52` in another),
neither empty nor the value of a field of the frame. -/
theorem FromBytes_Firmware_fromSpare :
    FromBytes ⟨[0x01, 0x00, 0x00, 0x03, 0x03, 0x00, 0x02], [0x41, 0x42]⟩
      = .ok (some { NewDiscoveryResponse with Firmware := [0x41, 0x42] }) ∧
    FromBytes ⟨[0x01, 0x00, 0x00, 0x03, 0x03, 0x00, 0x02], [0x51, 0x52]⟩
      = .ok (some { NewDiscoveryResponse with Firmware := [0x51, 0x52] }) := by
  decide

/-- C15, amended: in a frame that `FromBytes` decodes successfully and whose
payload is exactly a sequence of fields (every field lies within the payload),
each of Firmware (0x03), RadioName (0x0b), ModelShort (0x0c), ESSID (0x0d) and
ModelFull (0x14) is, byte for byte, the value of the last field of its type in
the frame, and is empty when the frame has no field of that type. -/
theorem FromBytes_strings_lastField (L : Byte) (fs : List Field) (spare : List Byte)
    (r : DiscoveryResponse)
    (hL : L.val = (encodeFields fs).length)
    (hok : FromBytes ⟨DiscoveryHeader ++ L :: encodeFields fs, spare⟩ = .ok (some r)) :
    r.Firmware = ((lastField (hasType 0x03) fs).map Field.value).getD [] ∧
    r.RadioName = ((lastField (hasType 0x0b) fs).map Field.value).getD [] ∧
    r.ModelShort = ((lastField (hasType 0x0c) fs).map Field.value).getD [] ∧
    r.ESSID = ((lastField (hasType 0x0d) fs).map Field.value).getD [] ∧
    r.ModelFull = ((lastField (hasType 0x14) fs).map Field.value).getD [] :=
  ⟨FromBytes_last L fs spare r (fun r => r.Firmware) (hasType FieldTypeFirmware) Field.value
      (fun f lo resp r hb h => applyField_Firmware _ f lo resp r hb h) hL hok,
   FromBytes_last L fs spare r (fun r => r.RadioName) (hasType FieldTypeRadioName) Field.value
      (fun f lo resp r hb h => applyField_RadioName _ f lo resp r hb h) hL hok,
   FromBytes_last L fs spare r (fun r => r.ModelShort) (hasType FieldTypeModelShort) Field.value
      (fun f lo resp r hb h => applyField_ModelShort _ f lo resp r hb h) hL hok,
   FromBytes_last L fs spare r (fun r => r.ESSID) (hasType FieldTypeESSID) Field.value
      (fun f lo resp r hb h => applyField_ESSID _ f lo resp r hb h) hL hok,
   FromBytes_last L fs spare r (fun r => r.ModelFull) (hasType FieldTypeModelFull) Field.value
      (fun f lo resp r hb h => applyField_ModelFull _ f lo resp r hb h) hL hok⟩

/-- Witness of C15 (amended): `01 00 00 0E 03 00 01 31 0C 00 03 55 41 50 03 00 01 32`, firmware
`31`, model `55 41 50`, firmware `32`: Firmware is `32`, ModelShort is
`55 41 50`, the other strings are empty. -/
theorem FromBytes_strings_lastField_witness :
    FromBytes ⟨[0x01, 0x00, 0x00, 0x0E, 0x03, 0x00, 0x01, 0x31, 0x0C, 0x00, 0x03, 0x55, 0x41, 0x50,
        0x03, 0x00, 0x01, 0x32], []⟩
      = .ok (some { NewDiscoveryResponse with
          Firmware := [0x32], ModelShort := [0x55, 0x41, 0x50] }) ∧
    ((lastField (hasType 0x03)
        [⟨0x03, [0x31]⟩, ⟨0x0C, [0x55, 0x41, 0x50]⟩, ⟨0x03, [0x32]⟩]).map Field.value).getD []
      = [0x32] ∧
    ((lastField (hasType 0x0d)
        [⟨0x03, [0x31]⟩, ⟨0x0C, [0x55, 0x41, 0x50]⟩, ⟨0x03, [0x32]⟩]).map Field.value).getD []
      = [] :=
  ⟨by decide,
   (FromBytes_strings_lastField 0x0E
      [⟨0x03, [0x31]⟩, ⟨0x0C, [0x55, 0x41, 0x50]⟩, ⟨0x03, [0x32]⟩] []
      { NewDiscoveryResponse with Firmware := [0x32], ModelShort := [0x55, 0x41, 0x50] }
      (by decide) (by decide)).1.symm,
   by decide⟩

/-- C20, as stated, fails: on the 5-byte buffer `01 00 00 01 05` with two spare
bytes `00 00` behind it the payload has 1 byte, and the loop runs one full
iteration (it reads the length `00 00` behind the end of the buffer and ends
at offset 7), which is more than a third of the payload length. -/
theorem fieldLoopIterations_oneBytePayload :
    fieldLoopIterations ⟨[0x01, 0x00, 0x00, 0x01, 0x05], [0x00, 0x00]⟩ 5 4 NewDiscoveryResponse = 1 ∧
    (ByteSlice.mk [0x01, 0x00, 0x00, 0x01, 0x05] [0x00, 0x00]).len - 4 = 1 ∧
    fieldStep ⟨[0x01, 0x00, 0x00, 0x01, 0x05], [0x00, 0x00]⟩ 4 NewDiscoveryResponse
      = .ok (7, { NewDiscoveryResponse with Unknown := [(0x05, ⟨7, 7⟩)] }) ∧
    FromBytes ⟨[0x01, 0x00, 0x00, 0x01, 0x05], [0x00, 0x00]⟩
      = .ok (some { NewDiscoveryResponse with Unknown := [(0x05, ⟨7, 7⟩)] }) := by
  decide

/-- C20, amended: the field loop of `FromBytes` terminates on every input (the
model never runs out of its `len(d)` iterations, and from any offset it ends
within a third, rounded up, of the remaining bytes); an iteration that does
not return advances the offset by at least 3; the iterations that do not
return are at most a third of the remaining bytes rounded up, and at most a
third of them when the buffer has no spare capacity; the loop leaves by its
`break` exactly when the offset has reached or passed `len(d)`, and runs the
iteration body otherwise. -/
theorem fieldLoop_terminates (d : ByteSlice) :
    FromBytes d ≠ .outOfFuel ∧
    (∀ (fuel offset : Nat) (resp : DiscoveryResponse),
      d.len ≤ offset + 3 * fuel → fieldLoop d (fuel + 1) offset resp ≠ .outOfFuel) ∧
    (∀ (offset o : Nat) (resp r : DiscoveryResponse),
      fieldStep d offset resp = .ok (o, r) → offset + 3 ≤ o) ∧
    (∀ (fuel offset : Nat) (resp : DiscoveryResponse),
      3 * fieldLoopIterations d fuel offset resp ≤ (d.len - offset) + 2) ∧
    (d.spare = [] → ∀ (fuel offset : Nat) (resp : DiscoveryResponse),
      3 * fieldLoopIterations d fuel offset resp ≤ d.len - offset) ∧
    (∀ (fuel offset : Nat) (resp : DiscoveryResponse),
      fieldLoop d (fuel + 1) offset resp =
        if offset ≥ d.len then .ok resp
        else (fieldStep d offset resp).bind (fun x => fieldLoop d fuel x.1 x.2)) := by
  refine ⟨FromBytes_ne_outOfFuel d, fieldLoop_ne_outOfFuel d, ?_,
    fieldLoopIterations_le d, fieldLoopIterations_le_of_noSpare d, fieldLoop_eq_step d⟩
  intro offset o resp r h
  obtain ⟨t, m, _, ho, _, _⟩ := fieldStep_ok d offset o resp r h
  omega

/-- Witness of C20 (amended): on `01 00 00 09 01 00 06 AA BB CC DD EE FF`, without
spare capacity, the loop runs 1 iteration on 9 payload bytes and `FromBytes`
ends. -/
theorem fieldLoop_terminates_witness :
    FromBytes ⟨[0x01, 0x00, 0x00, 0x09, 0x01, 0x00, 0x06, 0xAA, 0xBB, 0xCC, 0xDD, 0xEE, 0xFF], []⟩
      ≠ .outOfFuel ∧
    3 * fieldLoopIterations
        ⟨[0x01, 0x00, 0x00, 0x09, 0x01, 0x00, 0x06, 0xAA, 0xBB, 0xCC, 0xDD, 0xEE, 0xFF], []⟩
        13 4 NewDiscoveryResponse ≤ 13 - 4 ∧
    fieldLoopIterations
        ⟨[0x01, 0x00, 0x00, 0x09, 0x01, 0x00, 0x06, 0xAA, 0xBB, 0xCC, 0xDD, 0xEE, 0xFF], []⟩
        13 4 NewDiscoveryResponse = 1 :=
  ⟨(fieldLoop_terminates
      ⟨[0x01, 0x00, 0x00, 0x09, 0x01, 0x00, 0x06, 0xAA, 0xBB, 0xCC, 0xDD, 0xEE, 0xFF], []⟩).1,
   (fieldLoop_terminates
      ⟨[0x01, 0x00, 0x00, 0x09, 0x01, 0x00, 0x06, 0xAA, 0xBB, 0xCC, 0xDD, 0xEE, 0xFF], []⟩).2.2.2.2.1
      rfl 13 4 NewDiscoveryResponse,
   by decide⟩

/-- C16: every response that a successful `FromBytes` returns is well formed:
its MAC is nil or shows exactly 6 bytes, and its IP is nil or shows exactly 4
or 16 bytes (in fact always 16: `net.IPv4` builds the 16-byte form). -/
theorem FromBytes_wellFormed (d : ByteSlice) (r : DiscoveryResponse)
    (hok : FromBytes d = .ok (some r)) :
    (∀ m, (r.read d.backing).MAC = some m → m.length = 6) ∧
    (∀ ip, (r.read d.backing).IP = some ip → ip.length = 4 ∨ ip.length = 16) ∧
    (∀ ip, (r.read d.backing).IP = some ip → ip.length = 16) := by
  have hw := fieldLoop_wellShaped d d.len _ NewDiscoveryResponse r
    (FromBytes_ok_fieldLoop d r hok) (NewDiscoveryResponse_wellShaped d.cap)
  obtain ⟨hm, hf, hs⟩ := hw
  have hcap : d.cap = d.backing.length := by simp [ByteSlice.cap, ByteSlice.backing]
  have hip : ∀ ip, (r.read d.backing).IP = some ip → ip.length = 16 := by
    intro ip hip
    simp only [DiscoveryResponse.read, Option.map_eq_some'] at hip
    obtain ⟨x, hx, hxe⟩ := hip
    cases x with
    | fresh bs => dsimp only at hxe; rw [← hxe]; exact hf bs hx
    | shared v =>
      dsimp only at hxe
      obtain ⟨h1, h2⟩ := hs v hx
      rw [← hxe]
      exact View.length_bytes _ v 16 h1 (by omega)
  refine ⟨?_, fun ip h => Or.inr (hip ip h), hip⟩
  intro m hmac
  simp only [DiscoveryResponse.read, Option.map_eq_some'] at hmac
  obtain ⟨v, hv, hve⟩ := hmac
  obtain ⟨h1, h2⟩ := hm v hv
  rw [← hve]
  exact View.length_bytes _ v 6 h1 (by omega)

/-- Witness of C16: the response of `01 00 00 0D 02 00 0A AA BB CC DD EE FF 0A 00 00 01`
shows the 6-byte MAC `AA BB CC DD EE FF` and the 16-byte IP `net.IPv4(10, 0, 0, 1)`. -/
theorem FromBytes_wellFormed_witness :
    FromBytes ⟨[0x01, 0x00, 0x00, 0x0D, 0x02, 0x00, 0x0A, 0xAA, 0xBB, 0xCC, 0xDD, 0xEE, 0xFF,
        0x0A, 0x00, 0x00, 0x01], []⟩
      = .ok (some { NewDiscoveryResponse with
          MAC := some ⟨7, 13⟩, IP := some (.fresh (IPv4 10 0 0 1)) }) ∧
    ([0xAA, 0xBB, 0xCC, 0xDD, 0xEE, 0xFF] : List Byte).length = 6 ∧
    (IPv4 10 0 0 1).length = 16 :=
  ⟨by decide,
   (FromBytes_wellFormed
      ⟨[0x01, 0x00, 0x00, 0x0D, 0x02, 0x00, 0x0A, 0xAA, 0xBB, 0xCC, 0xDD, 0xEE, 0xFF,
        0x0A, 0x00, 0x00, 0x01], []⟩
      { NewDiscoveryResponse with MAC := some ⟨7, 13⟩, IP := some (.fresh (IPv4 10 0 0 1)) }
      (by decide)).1 [0xAA, 0xBB, 0xCC, 0xDD, 0xEE, 0xFF] (by decide),
   (FromBytes_wellFormed
      ⟨[0x01, 0x00, 0x00, 0x0D, 0x02, 0x00, 0x0A, 0xAA, 0xBB, 0xCC, 0xDD, 0xEE, 0xFF,
        0x0A, 0x00, 0x00, 0x01], []⟩
      { NewDiscoveryResponse with MAC := some ⟨7, 13⟩, IP := some (.fresh (IPv4 10 0 0 1)) }
      (by decide)).2.2 (IPv4 10 0 0 1) (by decide)⟩

/-- C17: when the set-up of `Discover` has succeeded and the receive loop has
collected the list `responses` in the receive buffer `buf` from the datagrams
read so far, a read that fails with an error that is not a timeout makes
`Discover` return that error and no list, whatever `responses` holds, and a
read that fails with a timeout makes `Discover` return `responses`, read from
the receive buffer, and no error. -/
theorem Discover_read_end (net : Net) (buf : List Byte) (responses : List DiscoveryResponse)
    (hl : net.listenOk = true) (hr : net.resolveOk = true) (hs : net.sendOk = true)
    (hd : net.deadlineOk = true)
    (h : receiveAll net.datagrams (List.replicate bufSize 0) [] = .ok (buf, responses)) :
    (net.last = .failure → Discover net = .readError) ∧
    (net.last = .timeout →
      Discover net = .returned (responses.map (DiscoveryResponse.read buf))) := by
  have hD : Discover net
      = receiveLoop net.datagrams net.last (List.replicate bufSize 0) [] := by
    simp [Discover, hl, hr, hs, hd]
  rw [hD]
  have key := receiveLoop_of_receiveAll net.datagrams (List.replicate bufSize 0) [] buf
    responses h
  exact ⟨fun he => by rw [he]; exact key.1, fun he => by rw [he]; exact key.2⟩

/-- Witness of C17: after the datagram `01 00 00 09 01 00 06 AA BB CC DD EE FF`, a
read failure returns the error and a timeout returns the one response. -/
theorem Discover_read_end_witness :
    Discover ⟨true, true, true, true,
        [[0x01, 0x00, 0x00, 0x09, 0x01, 0x00, 0x06, 0xAA, 0xBB, 0xCC, 0xDD, 0xEE, 0xFF]],
        .failure⟩
      = .readError ∧
    Discover ⟨true, true, true, true,
        [[0x01, 0x00, 0x00, 0x09, 0x01, 0x00, 0x06, 0xAA, 0xBB, 0xCC, 0xDD, 0xEE, 0xFF]],
        .timeout⟩
      = .returned
        [{ MAC := some [0xAA, 0xBB, 0xCC, 0xDD, 0xEE, 0xFF], IP := none, Firmware := [],
           RadioName := [], ModelShort := [], ESSID := [], ModelFull := [], Unknown := [] }] :=
  ⟨(Discover_read_end
      ⟨true, true, true, true,
        [[0x01, 0x00, 0x00, 0x09, 0x01, 0x00, 0x06, 0xAA, 0xBB, 0xCC, 0xDD, 0xEE, 0xFF]],
        .failure⟩
      ([0x01, 0x00, 0x00, 0x09, 0x01, 0x00, 0x06, 0xAA, 0xBB, 0xCC, 0xDD, 0xEE, 0xFF]
        ++ List.replicate 1011 0)
      [{ NewDiscoveryResponse with MAC := some ⟨7, 13⟩ }]
      rfl rfl rfl rfl (by set_option maxRecDepth 1000000 in decide)).1 rfl,
   ((Discover_read_end
      ⟨true, true, true, true,
        [[0x01, 0x00, 0x00, 0x09, 0x01, 0x00, 0x06, 0xAA, 0xBB, 0xCC, 0xDD, 0xEE, 0xFF]],
        .timeout⟩
      ([0x01, 0x00, 0x00, 0x09, 0x01, 0x00, 0x06, 0xAA, 0xBB, 0xCC, 0xDD, 0xEE, 0xFF]
        ++ List.replicate 1011 0)
      [{ NewDiscoveryResponse with MAC := some ⟨7, 13⟩ }]
      rfl rfl rfl rfl (by set_option maxRecDepth 1000000 in decide)).2 rfl).trans
    (by set_option maxRecDepth 1000000 in decide)⟩

/-- C18, as stated, fails: when the target does not resolve, `Discover` calls
`log.Fatalf` (line 44), which ends the process; nothing is returned to the
caller. -/
theorem Discover_unresolvable_fatal :
    Discover ⟨true, false, true, true, [], .timeout⟩ = .fatal .resolve := by
  decide

/-- C18, amended: for every target that cannot be resolved, `Discover` does not
return to its caller: it ends the process through `log.Fatalf`, at the resolve
step when the socket could be opened and at the listen step otherwise; it does
not panic. -/
theorem Discover_unresolvable (net : Net) (h : net.resolveOk = false) :
    Discover net = .fatal (if net.listenOk then .resolve else .listen) := by
  unfold Discover
  cases hl : net.listenOk <;> simp [h]

/-- Witness of C18 (amended): the socket opens, the target does not resolve. -/
theorem Discover_unresolvable_witness :
    Discover ⟨true, false, true, true, [[0x01, 0x00, 0x00, 0x00]], .failure⟩ = .fatal .resolve :=
  Discover_unresolvable ⟨true, false, true, true, [[0x01, 0x00, 0x00, 0x00]], .failure⟩ rfl

end UnifiDiscover
